import Mathlib

/-!
Verification of the `caf_components` component framework.

We shallowly embed the core of the repository in Lean:

* `templateUtils.js` — description merging (`mergeComponents`, `mergeEnv`,
  `mergeObj`, `merge`) and environment resolution (`resolveEnv`).
* `myUtils.js` — `deepClone`, `retryWithDelay`.
* `gen_component.js`, `gen_container.js`, `gen_dynamic_container.js`,
  `gen_supervisor.js`, `gen_loader.js` and the transactional container —
  their lifecycle operations (`checkup`, `shutdown`, two-phase commit,
  `loadComponent`, supervisor start) as explicit state transformers.

JavaScript values are modelled by the inductive `JVal`: `undefined` stands for
JavaScript `undefined`, `null` for `null`; numbers are modelled as integers
(the descriptions manipulated by the framework use integral numbers).
Mutation is modelled by returning new values; for the frame claim about
`merge` a second, instrumented embedding tags every mutable node with a heap
identity and records every write (see the `Tagged` section).
-/

namespace CafComponents

/-- A JSON-like JavaScript value. `undefined` models `undefined`. -/
inductive JVal where
  | null : JVal
  | undefined : JVal
  | bool (b : Bool) : JVal
  | num (n : Int) : JVal
  | str (s : String) : JVal
  | arr (elems : List JVal) : JVal
  | obj (fields : List (String × JVal)) : JVal
  deriving Repr

mutual

/-- Structural equality test on `JVal` (decidable equality is not
auto-derivable for nested inductives). -/
def JVal.beq : JVal → JVal → Bool
  | .null, .null => true
  | .undefined, .undefined => true
  | .bool a, .bool b => a == b
  | .num a, .num b => a == b
  | .str a, .str b => a == b
  | .arr a, .arr b => JVal.beqList a b
  | .obj a, .obj b => JVal.beqFields a b
  | _, _ => false

def JVal.beqList : List JVal → List JVal → Bool
  | [], [] => true
  | a :: as, b :: bs => JVal.beq a b && JVal.beqList as bs
  | _, _ => false

def JVal.beqFields : List (String × JVal) → List (String × JVal) → Bool
  | [], [] => true
  | (k, v) :: as, (k2, v2) :: bs =>
      k == k2 && JVal.beq v v2 && JVal.beqFields as bs
  | _, _ => false

end

mutual

theorem JVal.beq_iff : ∀ a b : JVal, JVal.beq a b = true ↔ a = b
  | .null, b => by cases b <;> simp [JVal.beq]
  | .undefined, b => by cases b <;> simp [JVal.beq]
  | .bool _, b => by cases b <;> simp [JVal.beq]
  | .num _, b => by cases b <;> simp [JVal.beq]
  | .str _, b => by cases b <;> simp [JVal.beq]
  | .arr l, b => by
      cases b <;> simp [JVal.beq]
      exact JVal.beqList_iff l _
  | .obj f, b => by
      cases b <;> simp [JVal.beq]
      exact JVal.beqFields_iff f _

theorem JVal.beqList_iff : ∀ a b : List JVal, JVal.beqList a b = true ↔ a = b
  | [], b => by cases b <;> simp [JVal.beqList]
  | v :: vs, b => by
      cases b with
      | nil => simp [JVal.beqList]
      | cons w ws =>
          simp [JVal.beqList, JVal.beq_iff v w, JVal.beqList_iff vs ws]

theorem JVal.beqFields_iff : ∀ a b : List (String × JVal),
    JVal.beqFields a b = true ↔ a = b
  | [], b => by cases b <;> simp [JVal.beqFields]
  | (k, v) :: vs, b => by
      cases b with
      | nil => simp [JVal.beqFields]
      | cons w ws =>
          obtain ⟨k2, v2⟩ := w
          simp [JVal.beqFields, JVal.beq_iff v v2, JVal.beqFields_iff vs ws,
                and_assoc]

end

instance : DecidableEq JVal := fun a b => decidable_of_iff _ (JVal.beq_iff a b)

/-- JavaScript truthiness of a `JVal`. -/
def JVal.truthy : JVal → Bool
  | .null => false
  | .undefined => false
  | .bool b => b
  | .num n => n != 0
  | .str s => s != ""
  | .arr _ => true
  | .obj _ => true

/-- The `module` field of a description: `undefined`, `null`
(meaning "delete this component" in a delta), or a string. -/
inductive MVal where
  | undefined : MVal
  | null : MVal
  | str (s : String) : MVal
  deriving Repr, DecidableEq

/-- JavaScript truthiness of a `module` field. -/
def MVal.truthy : MVal → Bool
  | .str s => s != ""
  | _ => false

/-- A parsed component description (`specType` in `templateUtils.js`):
`{name, module, description=, env, components=}`. `description = none` and
`components = none` model absent fields. -/
inductive CompSpec where
  | mk (name : String) (module : MVal) (description : Option String)
       (env : List (String × JVal)) (components : Option (List CompSpec))
  deriving Repr

mutual

/-- Structural equality test on descriptions. -/
def CompSpec.beq : CompSpec → CompSpec → Bool
  | .mk n m d e c, .mk n2 m2 d2 e2 c2 =>
      n == n2 && m == m2 && d == d2 && JVal.beqFields e e2 &&
        CompSpec.beqOptList c c2

def CompSpec.beqOptList : Option (List CompSpec) → Option (List CompSpec) → Bool
  | none, none => true
  | some a, some b => CompSpec.beqList a b
  | _, _ => false

def CompSpec.beqList : List CompSpec → List CompSpec → Bool
  | [], [] => true
  | a :: as, b :: bs => CompSpec.beq a b && CompSpec.beqList as bs
  | _, _ => false

end

mutual

theorem CompSpec.spec_beq_iff : ∀ a b : CompSpec, CompSpec.beq a b = true ↔ a = b
  | .mk n m d e c, .mk n2 m2 d2 e2 c2 => by
      simp [CompSpec.beq, JVal.beqFields_iff e e2,
            CompSpec.spec_beqOptList_iff c c2, and_assoc]

theorem CompSpec.spec_beqOptList_iff : ∀ a b : Option (List CompSpec),
    CompSpec.beqOptList a b = true ↔ a = b
  | none, b => by cases b <;> simp [CompSpec.beqOptList]
  | some l, b => by
      cases b with
      | none => simp [CompSpec.beqOptList]
      | some l2 => simp [CompSpec.beqOptList, CompSpec.spec_beqList_iff l l2]

theorem CompSpec.spec_beqList_iff : ∀ a b : List CompSpec,
    CompSpec.beqList a b = true ↔ a = b
  | [], b => by cases b <;> simp [CompSpec.beqList]
  | c :: cs, b => by
      cases b with
      | nil => simp [CompSpec.beqList]
      | cons c2 cs2 =>
          simp [CompSpec.beqList, CompSpec.spec_beq_iff c c2,
                CompSpec.spec_beqList_iff cs cs2]

end

instance : DecidableEq CompSpec := fun a b =>
  decidable_of_iff _ (CompSpec.spec_beq_iff a b)

def CompSpec.name : CompSpec → String
  | .mk n _ _ _ _ => n

def CompSpec.module : CompSpec → MVal
  | .mk _ m _ _ _ => m

def CompSpec.description : CompSpec → Option String
  | .mk _ _ d _ _ => d

def CompSpec.env : CompSpec → List (String × JVal)
  | .mk _ _ _ e _ => e

def CompSpec.components : CompSpec → Option (List CompSpec)
  | .mk _ _ _ _ c => c

mutual

/-- Size measure for well-founded recursion over descriptions. -/
def CompSpec.size : CompSpec → Nat
  | .mk _ _ _ _ none => 2
  | .mk _ _ _ _ (some cs) => 2 + CompSpec.sizeList cs

/-- Size measure for lists of descriptions. -/
def CompSpec.sizeList : List CompSpec → Nat
  | [] => 0
  | c :: cs => 1 + CompSpec.size c + CompSpec.sizeList cs

end

mutual

/-- `myUtils.deepClone` on JSON values (no filter argument): rebuilds
arrays and objects, returns scalars unchanged. -/
def deepClone : JVal → JVal
  | .null => .null
  | .undefined => .undefined
  | .bool b => .bool b
  | .num n => .num n
  | .str s => .str s
  | .arr l => .arr (deepCloneList l)
  | .obj kvs => .obj (deepCloneFields kvs)

def deepCloneList : List JVal → List JVal
  | [] => []
  | v :: vs => deepClone v :: deepCloneList vs

def deepCloneFields : List (String × JVal) → List (String × JVal)
  | [] => []
  | (k, v) :: vs => (k, deepClone v) :: deepCloneFields vs

end

mutual

theorem deepClone_id : ∀ v : JVal, deepClone v = v
  | .null => rfl
  | .undefined => rfl
  | .bool _ => rfl
  | .num _ => rfl
  | .str _ => rfl
  | .arr l => by rw [deepClone, deepCloneList_id]
  | .obj kvs => by rw [deepClone, deepCloneFields_id]

theorem deepCloneList_id : ∀ l : List JVal, deepCloneList l = l
  | [] => rfl
  | v :: vs => by rw [deepCloneList, deepClone_id, deepCloneList_id]

theorem deepCloneFields_id : ∀ l : List (String × JVal), deepCloneFields l = l
  | [] => rfl
  | (k, v) :: vs => by rw [deepCloneFields, deepClone_id, deepCloneFields_id]

end

mutual

/-- `myUtils.deepClone` applied to a whole description. -/
def deepCloneSpec : CompSpec → CompSpec
  | .mk n m d e none => .mk n m d (deepCloneFields e) none
  | .mk n m d e (some cs) => .mk n m d (deepCloneFields e) (some (deepCloneSpecList cs))

def deepCloneSpecList : List CompSpec → List CompSpec
  | [] => []
  | c :: cs => deepCloneSpec c :: deepCloneSpecList cs

end

mutual

theorem deepCloneSpec_id : ∀ c : CompSpec, deepCloneSpec c = c
  | .mk _ _ _ e none => by rw [deepCloneSpec, deepCloneFields_id]
  | .mk _ _ _ e (some cs) => by
      rw [deepCloneSpec, deepCloneFields_id, deepCloneSpecList_id]

theorem deepCloneSpecList_id : ∀ cs : List CompSpec, deepCloneSpecList cs = cs
  | [] => rfl
  | c :: cs => by rw [deepCloneSpecList, deepCloneSpec_id, deepCloneSpecList_id]

end

/-- Assignment `result[x] = v` on a JavaScript object modelled as an
insertion-ordered association list: an existing key keeps its position,
a new key is appended. -/
def setKey (l : List (String × JVal)) (k : String) (v : JVal) :
    List (String × JVal) :=
  if l.any (fun p => p.1 == k) then
    l.map (fun p => if p.1 == k then (k, v) else p)
  else
    l ++ [(k, v)]

/-- `templateUtils.mergeEnv`: deep clone the template environment, then
every key of the delta replaces the template's value wholesale (the value
deep-cloned). -/
def mergeEnv (template delta : List (String × JVal)) :
    List (String × JVal) :=
  delta.foldl (fun res p => setKey res p.1 (deepClone p.2))
    (deepCloneFields template)

/-- `findEntry`: index of the first entry with the given name
(`Array.prototype.some` stops at the first match). -/
def findEntry (result : List CompSpec) (name : String) : Option Nat :=
  result.findIdx? (fun x => x.name == name)

/-- `splice(n, 0, entry)`: insert at position `n` (clamped to the length,
as JavaScript `splice` does for positions past the end; positions are
never negative here because the cursor never goes below `-1`). -/
def insertAt (l : List CompSpec) (n : Nat) (e : CompSpec) : List CompSpec :=
  l.take n ++ e :: l.drop n

def dfltSpec : CompSpec := .mk "" .undefined none [] none

/-- `delta.name || template.name`. -/
def mergeName (t d : CompSpec) : String :=
  if d.name != "" then d.name else t.name

/-- `delta.module ? delta.module : template.module`. -/
def mergeModule (t d : CompSpec) : MVal :=
  if d.module.truthy then d.module else t.module

/-- `delta.description ? delta.description : template.description`. -/
def mergeDescription (t d : CompSpec) : Option String :=
  match d.description with
  | some s => if s != "" then some s else t.description
  | none => t.description

theorem CompSpec.sizeList_componentsD_lt (c : CompSpec) :
    CompSpec.sizeList (c.components.getD []) + 1 < c.size := by
  match c with
  | .mk _ _ _ _ none =>
      simp [CompSpec.components, CompSpec.size, CompSpec.sizeList]
  | .mk _ _ _ _ (some cs) =>
      simp [CompSpec.components, CompSpec.size]; omega

mutual

/-- `templateUtils.mergeObj`: merge two descriptions with the same name
(throwing when the names differ and `overrideName` is disabled). -/
def mergeObj (t d : CompSpec) (overrideName : Bool) : Except String CompSpec :=
  if t.name != d.name && !overrideName then
    .error "mergeObj: description names do not match"
  else
    let newEnv := mergeEnv t.env d.env
    if t.components.isSome || d.components.isSome then
      match mergeComponents (t.components.getD []) (d.components.getD []) with
      | .error e => .error e
      | .ok cs =>
          .ok (.mk (mergeName t d) (mergeModule t d) (mergeDescription t d)
                newEnv (some cs))
    else
      .ok (.mk (mergeName t d) (mergeModule t d) (mergeDescription t d)
            newEnv none)
termination_by CompSpec.size d
decreasing_by
  exact CompSpec.sizeList_componentsD_lt d

/-- `templateUtils.mergeComponents`: deep-clone the template array and fold
the delta entries over it with the `lastOp` cursor. -/
def mergeComponents (template delta : List CompSpec) :
    Except String (List CompSpec) :=
  mergeComponentsGo (deepCloneSpecList template) (-1) delta
termination_by CompSpec.sizeList delta + 1
decreasing_by
  omega

/-- The `delta.forEach` loop of `mergeComponents`, carrying the result
array and the `lastOp.index` cursor. -/
def mergeComponentsGo (res : List CompSpec) (lastOp : Int) :
    List CompSpec → Except String (List CompSpec)
  | [] => .ok res
  | x :: rest =>
    if x.module = .null then
      -- deleteEntry: the cursor moves only when the entry is found
      match findEntry res x.name with
      | some i => mergeComponentsGo (res.eraseIdx i) ((i : Int) - 1) rest
      | none => mergeComponentsGo res lastOp rest
    else
      match findEntry res x.name with
      | some i =>
          match mergeObj (res.getD i dfltSpec) x false with
          | .error e => .error e
          | .ok m => mergeComponentsGo (res.set i m) (i : Int) rest
      | none =>
          mergeComponentsGo (insertAt res (lastOp + 1).toNat (deepCloneSpec x))
            (lastOp + 1) rest
termination_by d => CompSpec.sizeList d
decreasing_by
  all_goals simp [CompSpec.sizeList]
  all_goals omega

end

/-- `templateUtils.merge`: a missing delta defaults to
`{name: template.name}`. -/
def merge (template : CompSpec) (delta : Option CompSpec)
    (overrideName : Bool) : Except String CompSpec :=
  let d := match delta with
    | some d => d
    | none => CompSpec.mk template.name .undefined none [] none
  mergeObj template d overrideName

/-- Reference cursor computation, written from the specification's wording:
look for a matching name first; on a match set the cursor to the entry's
index, then delete (decrementing the cursor) when the delta module is
`null`, else merge in place; with no match insert a deep clone at
`cursor + 1` when the module is not `null`, else do nothing. -/
def specCursorGo (res : List CompSpec) (lastOp : Int) :
    List CompSpec → Except String (List CompSpec)
  | [] => .ok res
  | x :: rest =>
    match findEntry res x.name with
    | some i =>
        if x.module = .null then
          specCursorGo (res.eraseIdx i) ((i : Int) - 1) rest
        else
          match mergeObj (res.getD i dfltSpec) x false with
          | .error e => .error e
          | .ok m => specCursorGo (res.set i m) (i : Int) rest
    | none =>
        if x.module = .null then
          specCursorGo res lastOp rest
        else
          specCursorGo (insertAt res (lastOp + 1).toNat (deepCloneSpec x))
            (lastOp + 1) rest

/-- Reference merge of two components arrays per the specification: start
from a deep clone of the template with the cursor at `-1`. -/
def specCursorMerge (template delta : List CompSpec) :
    Except String (List CompSpec) :=
  specCursorGo (deepCloneSpecList template) (-1) delta

theorem specCursorGo_eq_mergeComponentsGo :
    ∀ (d : List CompSpec) (res : List CompSpec) (lastOp : Int),
      specCursorGo res lastOp d = mergeComponentsGo res lastOp d
  | [], _, _ => by rw [specCursorGo, mergeComponentsGo]
  | x :: rest, res, lastOp => by
      rw [specCursorGo, mergeComponentsGo]
      by_cases hm : x.module = .null
      · cases hfind : findEntry res x.name with
        | none => simp [hm, specCursorGo_eq_mergeComponentsGo rest]
        | some i => simp [hm, specCursorGo_eq_mergeComponentsGo rest]
      · cases hfind : findEntry res x.name with
        | none => simp [hm, specCursorGo_eq_mergeComponentsGo rest]
        | some i =>
            cases hmo : mergeObj ((res[i]?).getD dfltSpec) x false with
            | error e => simp [hm, hfind, hmo]
            | ok m => simp [hm, hfind, hmo, specCursorGo_eq_mergeComponentsGo rest]

/-- C1: For every template components array and every delta components
array, the merged components array equals the reference cursor computation
described in the specification (`lastOp` starting at `-1`, matches moving
the cursor and merging or deleting in place, non-null non-matching entries
inserted as deep clones at `cursor + 1`). -/
theorem mergeComponents_eq_specCursorMerge
    (template delta : List CompSpec) :
    mergeComponents template delta = specCursorMerge template delta := by
  rw [mergeComponents, specCursorMerge, specCursorGo_eq_mergeComponentsGo]

/-! ### A JSON parser and stringifier

`templateUtils.parseString` and the transactional container use the
platform's `JSON.parse` / `JSON.stringify`. They are modelled here by a
small executable JSON reader and writer over `JVal`; numbers are modelled
as integers (integral JSON numbers), and `\u` escapes are outside the
model. The claims below use them either on concrete values or through
pointwise round-trip hypotheses. -/

def isWsChar (c : Char) : Bool :=
  c == ' ' || c == '\t' || c == '\n' || c == '\r'

def skipWs : List Char → List Char
  | [] => []
  | c :: cs => if isWsChar c then skipWs cs else c :: cs

/-- Whether the first list is a prefix of the second. -/
def charsPrefix : List Char → List Char → Bool
  | [], _ => true
  | _ :: _, [] => false
  | p :: ps, c :: cs => p == c && charsPrefix ps cs

/-- `s.indexOf(pfx) === 0` for strings. -/
def jsStartsWith (pfx s : String) : Bool :=
  charsPrefix pfx.data s.data

/-- `String.prototype.trim` (on the whitespace the framework uses). -/
def jsTrim (s : String) : String :=
  String.mk ((skipWs ((skipWs s.data).reverse)).reverse)

/-- `String.prototype.split('||')`: split on non-overlapping `||`
separators, scanning left to right. -/
def splitPipes : List Char → List (List Char)
  | [] => [[]]
  | '|' :: '|' :: cs => [] :: splitPipes cs
  | c :: cs =>
      match splitPipes cs with
      | [] => [[c]]
      | g :: gs => (c :: g) :: gs

def jsSplitPipes (s : String) : List String :=
  (splitPipes s.data).map String.mk

/-- Consume an expected literal (e.g. `ull` after `n`). -/
def eatChars : List Char → List Char → Option (List Char)
  | [], cs => some cs
  | p :: ps, c :: cs => if c == p then eatChars ps cs else none
  | _ :: _, [] => none

/-- Consume a maximal run of decimal digits, returning the value, the
number of digits, the first digit, and the rest. -/
def eatDigits (acc : Nat) (count : Nat) : List Char → Nat × Nat × List Char
  | [] => (acc, count, [])
  | c :: cs =>
      if c.isDigit then eatDigits (acc * 10 + (c.toNat - 48)) (count + 1) cs
      else (acc, count, c :: cs)

/-- Parse a JSON number (integral only: a fraction or exponent makes the
model's reader fail). Rejects leading zeros as JSON does. -/
def eatNumber (cs : List Char) : Option (Int × List Char) :=
  let (neg, cs1) := match cs with
    | '-' :: rest => (true, rest)
    | _ => (false, cs)
  match cs1 with
  | [] => none
  | c0 :: _ =>
      let (v, count, rest) := eatDigits 0 0 cs1
      if count == 0 then none
      else if c0 == '0' && count != 1 then none
      else
        match rest with
        | r :: _ => if r == '.' || r == 'e' || r == 'E' then none
                    else some (if neg then -(v : Int) else (v : Int), rest)
        | [] => some (if neg then -(v : Int) else (v : Int), rest)

/-- Parse the body of a JSON string literal (the opening quote already
consumed). -/
def eatStringLit (acc : List Char) : List Char → Option (String × List Char)
  | [] => none
  | '"' :: cs => some (String.mk acc.reverse, cs)
  | '\\' :: [] => none
  | '\\' :: e :: cs2 =>
      if e == '"' then eatStringLit ('"' :: acc) cs2
      else if e == '\\' then eatStringLit ('\\' :: acc) cs2
      else if e == '/' then eatStringLit ('/' :: acc) cs2
      else if e == 'n' then eatStringLit ('\n' :: acc) cs2
      else if e == 't' then eatStringLit ('\t' :: acc) cs2
      else if e == 'r' then eatStringLit ('\r' :: acc) cs2
      else if e == 'b' then eatStringLit (Char.ofNat 8 :: acc) cs2
      else if e == 'f' then eatStringLit (Char.ofNat 12 :: acc) cs2
      else none
  | c :: cs => eatStringLit (c :: acc) cs

mutual

/-- Fuel-indexed JSON value reader. -/
def parseVal : Nat → List Char → Option (JVal × List Char)
  | 0, _ => none
  | Nat.succ fuel, cs0 =>
      match skipWs cs0 with
      | [] => none
      | c :: rest =>
          if c == 'n' then
            match eatChars ['u', 'l', 'l'] rest with
            | some r => some (.null, r)
            | none => none
          else if c == 't' then
            match eatChars ['r', 'u', 'e'] rest with
            | some r => some (.bool true, r)
            | none => none
          else if c == 'f' then
            match eatChars ['a', 'l', 's', 'e'] rest with
            | some r => some (.bool false, r)
            | none => none
          else if c == '"' then
            match eatStringLit [] rest with
            | some (s, r) => some (.str s, r)
            | none => none
          else if c == '-' || c.isDigit then
            match eatNumber (c :: rest) with
            | some (n, r) => some (.num n, r)
            | none => none
          else if c == '[' then
            match skipWs rest with
            | ']' :: r => some (.arr [], r)
            | cs1 => parseArrItems fuel [] cs1
          else if c == Char.ofNat 123 then
            match skipWs rest with
            | c2 :: r =>
                if c2 == Char.ofNat 125 then some (.obj [], r)
                else parseObjItems fuel [] (c2 :: r)
            | [] => none
          else none

/-- Comma-separated array elements up to `]`. -/
def parseArrItems : Nat → List JVal → List Char → Option (JVal × List Char)
  | 0, _, _ => none
  | Nat.succ fuel, acc, cs =>
      match parseVal fuel cs with
      | none => none
      | some (v, cs1) =>
          match skipWs cs1 with
          | ',' :: cs2 => parseArrItems fuel (v :: acc) cs2
          | ']' :: cs2 => some (.arr (v :: acc).reverse, cs2)
          | _ => none

/-- Comma-separated `"key": value` members up to the closing brace. -/
def parseObjItems : Nat → List (String × JVal) → List Char →
    Option (JVal × List Char)
  | 0, _, _ => none
  | Nat.succ fuel, acc, cs =>
      match skipWs cs with
      | '"' :: cs1 =>
          match eatStringLit [] cs1 with
          | none => none
          | some (k, cs2) =>
              match skipWs cs2 with
              | ':' :: cs3 =>
                  match parseVal fuel cs3 with
                  | none => none
                  | some (v, cs4) =>
                      match skipWs cs4 with
                      | ',' :: cs5 => parseObjItems fuel ((k, v) :: acc) cs5
                      | c :: cs5 =>
                          if c == Char.ofNat 125 then
                            some (.obj ((k, v) :: acc).reverse, cs5)
                          else none
                      | [] => none
              | _ => none
      | _ => none

end

/-- `JSON.parse` model: `none` when the input is not valid JSON (the
source falls back to the raw string in that case). -/
def jsonParse (s : String) : Option JVal :=
  match parseVal (2 * s.length + 8) s.toList with
  | some (v, rest) => if (skipWs rest).isEmpty then some v else none
  | none => none

/-- `templateUtils.parseString`: JSON-parse, falling back to the raw
string. -/
def parseString (x : String) : JVal :=
  match jsonParse x with
  | some v => v
  | none => .str x

def quoteChar (c : Char) : List Char :=
  if c == '"' then ['\\', '"']
  else if c == '\\' then ['\\', '\\']
  else if c == '\n' then ['\\', 'n']
  else if c == '\t' then ['\\', 't']
  else if c == '\r' then ['\\', 'r']
  else [c]

def quoteString (s : String) : String :=
  "\"" ++ String.mk ((s.toList.map quoteChar).flatten) ++ "\""

mutual

/-- `JSON.stringify` model. `undefined` members of an object are omitted and
become `null` inside arrays, as in JavaScript; a top-level `undefined` (for
which `JSON.stringify` returns no string) is mapped to `""`. -/
def stringifyJson : JVal → String
  | .null => "null"
  | .undefined => ""
  | .bool b => if b then "true" else "false"
  | .num n => toString n
  | .str s => quoteString s
  | .arr l => "[" ++ stringifyItems l ++ "]"
  | .obj kvs =>
      String.singleton (Char.ofNat 123) ++ stringifyMembers kvs ++
        String.singleton (Char.ofNat 125)

def stringifyItems : List JVal → String
  | [] => ""
  | [v] => match v with
           | .undefined => "null"
           | v => stringifyJson v
  | v :: vs =>
      (match v with
       | .undefined => "null"
       | v => stringifyJson v) ++ "," ++ stringifyItems vs

def stringifyMembers : List (String × JVal) → String
  | [] => ""
  | (_, .undefined) :: vs => stringifyMembers vs
  | (k, v) :: vs =>
      quoteString k ++ ":" ++ stringifyJson v ++
        (match vs with
         | [] => ""
         | _ => if (stringifyMembers vs).isEmpty then "" else ",") ++
        stringifyMembers vs

end

/-! ### Environment resolution (`templateUtils.resolveEnv`) -/

def ENV_PROPERTY_PREFIX : String := "process.env."

mutual

/-- The recursive transform applied by `patchOneEnv`'s returned function
to each member of an environment (or of a nested array/object): a string
with the reserved prefix is replaced by `f` of the remainder (and not
re-visited); arrays and non-null objects are traversed recursively; any
other value is left alone. -/
def patchVal (pfx : String) (f : String → JVal) : JVal → JVal
  | .str s =>
      if jsStartsWith pfx s then f (s.drop pfx.length) else .str s
  | .arr l => .arr (patchValList pfx f l)
  | .obj kvs => .obj (patchValFields pfx f kvs)
  | v => v

def patchValList (pfx : String) (f : String → JVal) :
    List JVal → List JVal
  | [] => []
  | v :: vs => patchVal pfx f v :: patchValList pfx f vs

def patchValFields (pfx : String) (f : String → JVal) :
    List (String × JVal) → List (String × JVal)
  | [] => []
  | (k, v) :: vs => (k, patchVal pfx f v) :: patchValFields pfx f vs

end

mutual

/-- `templateUtils.patchEnv`: apply the environment patcher to every
`env` in the description tree. -/
def patchEnvDesc (pfx : String) (f : String → JVal) : CompSpec → CompSpec
  | .mk n m d e none => .mk n m d (patchValFields pfx f e) none
  | .mk n m d e (some cs) =>
      .mk n m d (patchValFields pfx f e) (some (patchEnvDescList pfx f cs))

def patchEnvDescList (pfx : String) (f : String → JVal) :
    List CompSpec → List CompSpec
  | [] => []
  | c :: cs => patchEnvDesc pfx f c :: patchEnvDescList pfx f cs

end

/-- The per-property function of `resolveEnv`: split the remainder on
`||`, look up the (trimmed) name in the process environment, JSON-parse
its value when defined; otherwise parse the default (only when the split
has exactly two parts), or yield `undefined`. -/
def resolveEnvF (penv : String → Option String) (propName : String) : JVal :=
  let p := jsSplitPipes propName
  match penv (jsTrim (p.headD "")) with
  | some prop => parseString prop
  | none =>
      if p.length == 2 then parseString (jsTrim (p.getD 1 ""))
      else .undefined

/-- `templateUtils.resolveEnv`, parameterised by the process environment
`penv` (the source reads `process.env`, an external input). -/
def resolveEnv (penv : String → Option String) (desc : CompSpec) : CompSpec :=
  patchEnvDesc ENV_PROPERTY_PREFIX (resolveEnvF penv) desc

mutual

/-- No string anywhere inside the value starts with the prefix. -/
def prefixFreeVal (pfx : String) : JVal → Bool
  | .str s => !(jsStartsWith pfx s)
  | .arr l => prefixFreeValList pfx l
  | .obj kvs => prefixFreeValFields pfx kvs
  | _ => true

def prefixFreeValList (pfx : String) : List JVal → Bool
  | [] => true
  | v :: vs => prefixFreeVal pfx v && prefixFreeValList pfx vs

def prefixFreeValFields (pfx : String) : List (String × JVal) → Bool
  | [] => true
  | (_, v) :: vs => prefixFreeVal pfx v && prefixFreeValFields pfx vs

end

mutual

/-- No string with the prefix occurs in any `env` of the description. -/
def prefixFreeDesc (pfx : String) : CompSpec → Bool
  | .mk _ _ _ e none => prefixFreeValFields pfx e
  | .mk _ _ _ e (some cs) =>
      prefixFreeValFields pfx e && prefixFreeDescList pfx cs

def prefixFreeDescList (pfx : String) : List CompSpec → Bool
  | [] => true
  | c :: cs => prefixFreeDesc pfx c && prefixFreeDescList pfx cs

end

mutual

theorem patchVal_of_prefixFree (pfx : String) (f : String → JVal) :
    ∀ v : JVal, prefixFreeVal pfx v = true → patchVal pfx f v = v
  | .null, _ => rfl
  | .undefined, _ => rfl
  | .bool _, _ => rfl
  | .num _, _ => rfl
  | .str s, h => by
      simp [prefixFreeVal] at h
      simp [patchVal, h]
  | .arr l, h => by
      simp [prefixFreeVal] at h
      simp [patchVal, patchValList_of_prefixFree pfx f l h]
  | .obj kvs, h => by
      simp [prefixFreeVal] at h
      simp [patchVal, patchValFields_of_prefixFree pfx f kvs h]

theorem patchValList_of_prefixFree (pfx : String) (f : String → JVal) :
    ∀ l : List JVal, prefixFreeValList pfx l = true →
      patchValList pfx f l = l
  | [], _ => rfl
  | v :: vs, h => by
      simp [prefixFreeValList] at h
      simp [patchValList, patchVal_of_prefixFree pfx f v h.1,
            patchValList_of_prefixFree pfx f vs h.2]

theorem patchValFields_of_prefixFree (pfx : String) (f : String → JVal) :
    ∀ l : List (String × JVal), prefixFreeValFields pfx l = true →
      patchValFields pfx f l = l
  | [], _ => rfl
  | (k, v) :: vs, h => by
      simp [prefixFreeValFields] at h
      simp [patchValFields, patchVal_of_prefixFree pfx f v h.1,
            patchValFields_of_prefixFree pfx f vs h.2]

end

mutual

theorem patchEnvDesc_of_prefixFree (pfx : String) (f : String → JVal) :
    ∀ c : CompSpec, prefixFreeDesc pfx c = true → patchEnvDesc pfx f c = c
  | .mk n m d e none, h => by
      simp [prefixFreeDesc] at h
      simp [patchEnvDesc, patchValFields_of_prefixFree pfx f e h]
  | .mk n m d e (some cs), h => by
      simp [prefixFreeDesc] at h
      simp [patchEnvDesc, patchValFields_of_prefixFree pfx f e h.1,
            patchEnvDescList_of_prefixFree pfx f cs h.2]

theorem patchEnvDescList_of_prefixFree (pfx : String) (f : String → JVal) :
    ∀ cs : List CompSpec, prefixFreeDescList pfx cs = true →
      patchEnvDescList pfx f cs = cs
  | [], _ => rfl
  | c :: cs, h => by
      simp [prefixFreeDescList] at h
      simp [patchEnvDescList, patchEnvDesc_of_prefixFree pfx f c h.1,
            patchEnvDescList_of_prefixFree pfx f cs h.2]

end

/-- A process environment under which `resolveEnv` is not idempotent: the
value of `A` is itself a string with the reserved prefix. -/
def penvCex : String → Option String := fun n =>
  if n == "A" then some "process.env.B"
  else if n == "B" then some "1" else none

def descCex : CompSpec :=
  .mk "top" (.str "m") none [("k", .str "process.env.A")] none

/-- C8 counterexample: with the process environment mapping
`A ↦ "process.env.B"` and `B ↦ "1"`, one application of `resolveEnv`
rewrites `env.k` to the string `"process.env.B"` and a second application
rewrites it again to the number `1`, so applying `resolveEnv` twice is not
the same as applying it once. -/
theorem resolveEnv_not_idempotent :
    resolveEnv penvCex (resolveEnv penvCex descCex) ≠
      resolveEnv penvCex descCex := by
  decide

/-- C8 (amended): applying `resolveEnv` twice produces the same tree as
applying it once, provided the once-resolved tree contains no string
value beginning with `process.env.` (which holds whenever the substituted
environment values and defaults do not themselves contain strings with
the reserved prefix). -/
theorem resolveEnv_idempotent_of_prefixFree
    (penv : String → Option String) (d : CompSpec)
    (h : prefixFreeDesc ENV_PROPERTY_PREFIX (resolveEnv penv d) = true) :
    resolveEnv penv (resolveEnv penv d) = resolveEnv penv d :=
  patchEnvDesc_of_prefixFree ENV_PROPERTY_PREFIX (resolveEnvF penv)
    (resolveEnv penv d) h

def penvW : String → Option String := fun n =>
  if n == "A" then some "42" else none

def descW : CompSpec :=
  .mk "top" (.str "m") none
    [("k", .str "process.env.A"), ("j", .str "plain")]
    (some [.mk "child" (.str "m2") none
      [("d", .str "process.env.MISSING||7"),
       ("e", .arr [.str "process.env.A", .num 3])] none])

theorem resolveEnv_idempotent_witness :
    prefixFreeDesc ENV_PROPERTY_PREFIX (resolveEnv penvW descW) = true ∧
    resolveEnv penvW (resolveEnv penvW descW) = resolveEnv penvW descW :=
  ⟨by decide, resolveEnv_idempotent_of_prefixFree penvW descW (by decide)⟩

/-! ### Instrumented merge for the frame claim (C5)

The pure embedding above cannot express mutation or sharing, so the merge
pipeline is transcribed a second time over values whose mutable nodes
(objects and arrays) carry a heap identity. Fresh identities are drawn
from a counter, every in-place update performed by the source
(`result[x] = …` in `mergeEnv`, the `splice`/index assignments in
`mergeComponents`, `result.components = …` in `mergeObj`) records the
identity of the node it writes. A claim about mutation and sharing then
becomes: no recorded write and no node of the result carries an identity
of the inputs. -/

/-- A JavaScript value whose mutable nodes carry a heap identity. -/
inductive TVal where
  | null : TVal
  | undefined : TVal
  | bool (b : Bool) : TVal
  | num (n : Int) : TVal
  | str (s : String) : TVal
  | arr (id : Nat) (elems : List TVal) : TVal
  | obj (id : Nat) (fields : List (String × TVal)) : TVal

/-- A description whose spec object, env object and components array each
carry a heap identity. -/
inductive TSpec where
  | mk (id : Nat) (name : String) (module : MVal) (description : Option String)
       (envId : Nat) (env : List (String × TVal))
       (components : Option (Nat × List TSpec))

def TSpec.tname : TSpec → String
  | .mk _ n _ _ _ _ _ => n

def TSpec.tmodule : TSpec → MVal
  | .mk _ _ m _ _ _ _ => m

def TSpec.tdescription : TSpec → Option String
  | .mk _ _ _ d _ _ _ => d

def TSpec.tenv : TSpec → List (String × TVal)
  | .mk _ _ _ _ _ e _ => e

def TSpec.tcomponents : TSpec → Option (Nat × List TSpec)
  | .mk _ _ _ _ _ _ c => c

/-- The components list (`spec.components || []`). -/
def TSpec.tcompsList (s : TSpec) : List TSpec :=
  match s.tcomponents with
  | some (_, l) => l
  | none => []

mutual

/-- Heap identities of the mutable nodes inside a value. -/
def idsVal : TVal → List Nat
  | .arr i l => i :: idsValList l
  | .obj i kvs => i :: idsValFields kvs
  | _ => []

def idsValList : List TVal → List Nat
  | [] => []
  | v :: vs => idsVal v ++ idsValList vs

def idsValFields : List (String × TVal) → List Nat
  | [] => []
  | (_, v) :: vs => idsVal v ++ idsValFields vs

end

mutual

/-- Heap identities of the mutable nodes inside a description. -/
def idsSpec : TSpec → List Nat
  | .mk i _ _ _ ei e none => i :: ei :: idsValFields e
  | .mk i _ _ _ ei e (some (ai, cs)) =>
      i :: ei :: (idsValFields e ++ ai :: idsSpecList cs)

def idsSpecList : List TSpec → List Nat
  | [] => []
  | c :: cs => idsSpec c ++ idsSpecList cs

end

mutual

/-- Delta-side size measure for the instrumented merge recursion. -/
def TSpec.tsize : TSpec → Nat
  | .mk _ _ _ _ _ _ none => 2
  | .mk _ _ _ _ _ _ (some (_, cs)) => 2 + TSpec.tsizeList cs

def TSpec.tsizeList : List TSpec → Nat
  | [] => 0
  | c :: cs => 1 + TSpec.tsize c + TSpec.tsizeList cs

end

theorem TSpec.tsizeList_tcompsList_lt (c : TSpec) :
    TSpec.tsizeList c.tcompsList + 1 < c.tsize := by
  match c with
  | .mk _ _ _ _ _ _ none =>
      simp [TSpec.tcompsList, TSpec.tcomponents, TSpec.tsize, TSpec.tsizeList]
  | .mk _ _ _ _ _ _ (some (_, cs)) =>
      simp [TSpec.tcompsList, TSpec.tcomponents, TSpec.tsize]; omega

mutual

/-- `myUtils.deepClone` on tagged values: every mutable node of the clone
gets a fresh identity from the counter. -/
def deepCloneTVal : TVal → Nat → TVal × Nat
  | .null, c => (.null, c)
  | .undefined, c => (.undefined, c)
  | .bool b, c => (.bool b, c)
  | .num n, c => (.num n, c)
  | .str s, c => (.str s, c)
  | .arr _ l, c =>
      let (l2, c2) := deepCloneTValList l (c + 1)
      (.arr c l2, c2)
  | .obj _ kvs, c =>
      let (kvs2, c2) := deepCloneTValFields kvs (c + 1)
      (.obj c kvs2, c2)

def deepCloneTValList : List TVal → Nat → List TVal × Nat
  | [], c => ([], c)
  | v :: vs, c =>
      let (v2, c1) := deepCloneTVal v c
      let (vs2, c2) := deepCloneTValList vs c1
      (v2 :: vs2, c2)

def deepCloneTValFields : List (String × TVal) → Nat →
    List (String × TVal) × Nat
  | [], c => ([], c)
  | (k, v) :: vs, c =>
      let (v2, c1) := deepCloneTVal v c
      let (vs2, c2) := deepCloneTValFields vs c1
      ((k, v2) :: vs2, c2)

end

mutual

/-- `myUtils.deepClone` on tagged descriptions. -/
def deepCloneTSpec : TSpec → Nat → TSpec × Nat
  | .mk _ n m d _ e comps, c =>
      let (e2, c2) := deepCloneTValFields e (c + 2)
      match comps with
      | none => (.mk c n m d (c + 1) e2 none, c2)
      | some (_, cs) =>
          let (cs2, c3) := deepCloneTSpecList cs (c2 + 1)
          (.mk c n m d (c + 1) e2 (some (c2, cs2)), c3)

def deepCloneTSpecList : List TSpec → Nat → List TSpec × Nat
  | [], c => ([], c)
  | s :: ss, c =>
      let (s2, c1) := deepCloneTSpec s c
      let (ss2, c2) := deepCloneTSpecList ss c1
      (s2 :: ss2, c2)

end

/-- Assignment on a tagged object's field list (existing key updated in
place, new key appended). -/
def setKeyT (l : List (String × TVal)) (k : String) (v : TVal) :
    List (String × TVal) :=
  if l.any (fun p => p.1 == k) then
    l.map (fun p => if p.1 == k then (k, v) else p)
  else
    l ++ [(k, v)]

def findEntryT (result : List TSpec) (name : String) : Option Nat :=
  result.findIdx? (fun x => x.tname == name)

def insertAtT (l : List TSpec) (n : Nat) (e : TSpec) : List TSpec :=
  l.take n ++ e :: l.drop n

def dfltTSpec : TSpec := .mk 0 "" .undefined none 0 [] none

/-- The `Object.keys(delta).forEach` loop of `mergeEnv`: each delta key is
deep-cloned and written into the result environment object `rid`. -/
def mergeEnvTGo (rid : Nat) (res : List (String × TVal)) :
    List (String × TVal) → Nat → List (String × TVal) × Nat × List Nat
  | [], c => (res, c, [])
  | (k, v) :: rest, c =>
      let (v2, c1) := deepCloneTVal v c
      let (res2, c2, ws) := mergeEnvTGo rid (setKeyT res k v2) rest c1
      (res2, c2, rid :: ws)

/-- `mergeEnv` on tagged environments: deep-clone the template env object
(fresh identity), then write every delta key into it. -/
def mergeEnvT (tEnv dEnv : List (String × TVal)) (c : Nat) :
    (Nat × List (String × TVal)) × Nat × List Nat :=
  let rid := c
  let (r0, c1) := deepCloneTValFields tEnv (c + 1)
  let (r1, c2, ws) := mergeEnvTGo rid r0 dEnv c1
  ((rid, r1), c2, ws)

def mergeNameT (t d : TSpec) : String :=
  if d.tname != "" then d.tname else t.tname

def mergeModuleT (t d : TSpec) : MVal :=
  if d.tmodule.truthy then d.tmodule else t.tmodule

def mergeDescriptionT (t d : TSpec) : Option String :=
  match d.tdescription with
  | some s => if s != "" then some s else t.tdescription
  | none => t.tdescription

mutual

/-- `mergeObj` on tagged descriptions: builds a fresh result object; the
`result.components = …` assignment records a write to the fresh object. -/
def mergeObjT (t d : TSpec) (ov : Bool) (c : Nat) :
    Except String TSpec × Nat × List Nat :=
  if t.tname != d.tname && !ov then
    (.error "mergeObj: description names do not match", c, [])
  else
    let (newEnv, c1, ws1) := mergeEnvT t.tenv d.tenv c
    if t.tcomponents.isSome || d.tcomponents.isSome then
      let rid := c1
      let (r, c2, ws2) := mergeComponentsT t.tcompsList d.tcompsList (rid + 1)
      match r with
      | .error e => (.error e, c2, ws1 ++ ws2)
      | .ok (aid, lst) =>
          (.ok (.mk rid (mergeNameT t d) (mergeModuleT t d)
                  (mergeDescriptionT t d) newEnv.1 newEnv.2 (some (aid, lst))),
           c2, ws1 ++ ws2 ++ [rid])
    else
      (.ok (.mk c1 (mergeNameT t d) (mergeModuleT t d) (mergeDescriptionT t d)
              newEnv.1 newEnv.2 none),
       c1 + 1, ws1)
termination_by TSpec.tsize d
decreasing_by
  exact TSpec.tsizeList_tcompsList_lt d

/-- `mergeComponents` on tagged descriptions: the deep clone of the
template array gets a fresh array identity, the cursor loop then splices
into that array. -/
def mergeComponentsT (tl dl : List TSpec) (c : Nat) :
    Except String (Nat × List TSpec) × Nat × List Nat :=
  let aid := c
  let (res0, c1) := deepCloneTSpecList tl (c + 1)
  let (r, c2, ws) := mergeComponentsGoT aid res0 (-1) dl c1
  match r with
  | .error e => (.error e, c2, ws)
  | .ok lst => (.ok (aid, lst), c2, ws)
termination_by TSpec.tsizeList dl + 1
decreasing_by
  omega

/-- The cursor loop of the tagged `mergeComponents`; every splice or index
assignment records a write to the result array `aid`. -/
def mergeComponentsGoT (aid : Nat) (res : List TSpec) (lastOp : Int) :
    List TSpec → Nat → Except String (List TSpec) × Nat × List Nat
  | [], c => (.ok res, c, [])
  | x :: rest, c =>
      if x.tmodule = .null then
        match findEntryT res x.tname with
        | some i =>
            let (r, c2, ws) :=
              mergeComponentsGoT aid (res.eraseIdx i) ((i : Int) - 1) rest c
            (r, c2, aid :: ws)
        | none => mergeComponentsGoT aid res lastOp rest c
      else
        match findEntryT res x.tname with
        | some i =>
            let (m, c1, ws1) := mergeObjT (res.getD i dfltTSpec) x false c
            match m with
            | .error e => (.error e, c1, ws1)
            | .ok mm =>
                let (r, c2, ws2) :=
                  mergeComponentsGoT aid (res.set i mm) ((i : Int)) rest c1
                (r, c2, ws1 ++ aid :: ws2)
        | none =>
            let (x2, c1) := deepCloneTSpec x c
            let (r, c2, ws2) :=
              mergeComponentsGoT aid (insertAtT res (lastOp + 1).toNat x2)
                (lastOp + 1) rest c1
            (r, c2, aid :: ws2)
termination_by d => TSpec.tsizeList d
decreasing_by
  all_goals simp [TSpec.tsizeList]
  all_goals omega

end

/-- `merge` on tagged descriptions; a missing delta becomes the fresh
literal `{name: template.name}` (with a fresh, empty environment). -/
def mergeT (t : TSpec) (delta : Option TSpec) (ov : Bool) (c : Nat) :
    Except String TSpec × Nat × List Nat :=
  match delta with
  | some d => mergeObjT t d ov c
  | none => mergeObjT t (.mk c t.tname .undefined none (c + 1) [] none) ov (c + 2)

/-- Every identity in the list is at least `n`. -/
def idsGE (n : Nat) (l : List Nat) : Prop := ∀ i ∈ l, n ≤ i

theorem idsGE_mono {n m : Nat} {l : List Nat} (h : idsGE n l) (hm : m ≤ n) :
    idsGE m l := fun i hi => le_trans hm (h i hi)

theorem idsGE_append {n : Nat} {a b : List Nat} (ha : idsGE n a)
    (hb : idsGE n b) : idsGE n (a ++ b) := by
  intro i hi
  rcases List.mem_append.mp hi with h | h
  · exact ha i h
  · exact hb i h

theorem idsGE_nil {n : Nat} : idsGE n [] := fun i hi => by cases hi

theorem idsGE_cons {n m : Nat} {l : List Nat} (hm : n ≤ m) (h : idsGE n l) :
    idsGE n (m :: l) := by
  intro i hi
  rcases List.mem_cons.mp hi with h1 | h1
  · omega
  · exact h i h1

mutual

theorem deepCloneTVal_bounds : ∀ (v : TVal) (c : Nat),
    c ≤ (deepCloneTVal v c).2 ∧ idsGE c (idsVal (deepCloneTVal v c).1)
  | .null, c => ⟨le_refl c, by simp [deepCloneTVal, idsVal, idsGE]⟩
  | .undefined, c => ⟨le_refl c, by simp [deepCloneTVal, idsVal, idsGE]⟩
  | .bool b, c => ⟨le_refl c, by simp [deepCloneTVal, idsVal, idsGE]⟩
  | .num n, c => ⟨le_refl c, by simp [deepCloneTVal, idsVal, idsGE]⟩
  | .str s, c => ⟨le_refl c, by simp [deepCloneTVal, idsVal, idsGE]⟩
  | .arr i l, c => by
      have h := deepCloneTValList_bounds l (c + 1)
      rcases hp : deepCloneTValList l (c + 1) with ⟨l2, c2⟩
      rw [hp] at h
      refine ⟨?_, ?_⟩
      · simpa [deepCloneTVal, hp] using le_trans (Nat.le_succ c) h.1
      · simp only [deepCloneTVal, hp, idsVal]
        exact idsGE_cons (le_refl c) (idsGE_mono h.2 (Nat.le_succ c))
  | .obj i kvs, c => by
      have h := deepCloneTValFields_bounds kvs (c + 1)
      rcases hp : deepCloneTValFields kvs (c + 1) with ⟨kvs2, c2⟩
      rw [hp] at h
      refine ⟨?_, ?_⟩
      · simpa [deepCloneTVal, hp] using le_trans (Nat.le_succ c) h.1
      · simp only [deepCloneTVal, hp, idsVal]
        exact idsGE_cons (le_refl c) (idsGE_mono h.2 (Nat.le_succ c))

theorem deepCloneTValList_bounds : ∀ (l : List TVal) (c : Nat),
    c ≤ (deepCloneTValList l c).2 ∧
      idsGE c (idsValList (deepCloneTValList l c).1)
  | [], c => ⟨le_refl c, by simp [deepCloneTValList, idsValList, idsGE]⟩
  | v :: vs, c => by
      have h1 := deepCloneTVal_bounds v c
      rcases hp1 : deepCloneTVal v c with ⟨v2, c1⟩
      rw [hp1] at h1
      have h2 := deepCloneTValList_bounds vs c1
      rcases hp2 : deepCloneTValList vs c1 with ⟨vs2, c2⟩
      rw [hp2] at h2
      refine ⟨?_, ?_⟩
      · simpa [deepCloneTValList, hp1, hp2] using le_trans h1.1 h2.1
      · simp only [deepCloneTValList, hp1, hp2, idsValList]
        exact idsGE_append h1.2 (idsGE_mono h2.2 h1.1)

theorem deepCloneTValFields_bounds : ∀ (l : List (String × TVal)) (c : Nat),
    c ≤ (deepCloneTValFields l c).2 ∧
      idsGE c (idsValFields (deepCloneTValFields l c).1)
  | [], c => ⟨le_refl c, by simp [deepCloneTValFields, idsValFields, idsGE]⟩
  | (k, v) :: vs, c => by
      have h1 := deepCloneTVal_bounds v c
      rcases hp1 : deepCloneTVal v c with ⟨v2, c1⟩
      rw [hp1] at h1
      have h2 := deepCloneTValFields_bounds vs c1
      rcases hp2 : deepCloneTValFields vs c1 with ⟨vs2, c2⟩
      rw [hp2] at h2
      refine ⟨?_, ?_⟩
      · simpa [deepCloneTValFields, hp1, hp2] using le_trans h1.1 h2.1
      · simp only [deepCloneTValFields, hp1, hp2, idsValFields]
        exact idsGE_append h1.2 (idsGE_mono h2.2 h1.1)

end

mutual

theorem deepCloneTSpec_bounds : ∀ (s : TSpec) (c : Nat),
    c ≤ (deepCloneTSpec s c).2 ∧ idsGE c (idsSpec (deepCloneTSpec s c).1)
  | .mk i n m d ei e comps, c => by
      have h1 := deepCloneTValFields_bounds e (c + 2)
      rcases hp1 : deepCloneTValFields e (c + 2) with ⟨e2, c2⟩
      rw [hp1] at h1
      match comps with
      | none =>
          refine ⟨?_, ?_⟩
          · simpa [deepCloneTSpec, hp1] using
              le_trans (by omega : c ≤ c + 2) h1.1
          · simp only [deepCloneTSpec, hp1, idsSpec]
            exact idsGE_cons (le_refl c)
              (idsGE_cons (by omega)
                (idsGE_mono h1.2 (by omega)))
      | some (ai, cs) =>
          have h2 := deepCloneTSpecList_bounds cs (c2 + 1)
          rcases hp2 : deepCloneTSpecList cs (c2 + 1) with ⟨cs2, c3⟩
          rw [hp2] at h2
          have hcc2 : c ≤ c2 := le_trans (by omega) h1.1
          refine ⟨?_, ?_⟩
          · simp only [deepCloneTSpec, hp1, hp2]
            omega
          · simp only [deepCloneTSpec, hp1, hp2, idsSpec]
            refine idsGE_cons (le_refl c) (idsGE_cons (by omega) ?_)
            refine idsGE_append (idsGE_mono h1.2 (by omega)) ?_
            refine idsGE_cons hcc2 ?_
            exact idsGE_mono h2.2 (by omega)

theorem deepCloneTSpecList_bounds : ∀ (l : List TSpec) (c : Nat),
    c ≤ (deepCloneTSpecList l c).2 ∧
      idsGE c (idsSpecList (deepCloneTSpecList l c).1)
  | [], c => ⟨le_refl c, by simp [deepCloneTSpecList, idsSpecList, idsGE]⟩
  | s :: ss, c => by
      have h1 := deepCloneTSpec_bounds s c
      rcases hp1 : deepCloneTSpec s c with ⟨s2, c1⟩
      rw [hp1] at h1
      have h2 := deepCloneTSpecList_bounds ss c1
      rcases hp2 : deepCloneTSpecList ss c1 with ⟨ss2, c2⟩
      rw [hp2] at h2
      refine ⟨?_, ?_⟩
      · simpa [deepCloneTSpecList, hp1, hp2] using le_trans h1.1 h2.1
      · simp only [deepCloneTSpecList, hp1, hp2, idsSpecList]
        exact idsGE_append h1.2 (idsGE_mono h2.2 h1.1)

end

theorem idsValFields_append (a b : List (String × TVal)) :
    idsValFields (a ++ b) = idsValFields a ++ idsValFields b := by
  induction a with
  | nil => simp [idsValFields]
  | cons p ps ih =>
      obtain ⟨k, v⟩ := p
      simp [idsValFields, ih]

theorem idsValFields_setKeyT (l : List (String × TVal)) (k : String)
    (v : TVal) :
    ∀ i ∈ idsValFields (setKeyT l k v),
      i ∈ idsValFields l ∨ i ∈ idsVal v := by
  intro i hi
  unfold setKeyT at hi
  by_cases hany : l.any (fun p => p.1 == k)
  · rw [if_pos hany] at hi
    clear hany
    induction l with
    | nil => simp [idsValFields] at hi
    | cons p ps ih =>
        obtain ⟨k2, v2⟩ := p
        simp only [List.map_cons] at hi
        by_cases hk : k2 == k
        · rw [if_pos hk] at hi
          simp only [idsValFields] at hi ⊢
          rcases List.mem_append.mp hi with h | h
          · exact Or.inr h
          · rcases ih h with h1 | h1
            · exact Or.inl (List.mem_append.mpr (Or.inr h1))
            · exact Or.inr h1
        · rw [if_neg hk] at hi
          simp only [idsValFields] at hi ⊢
          rcases List.mem_append.mp hi with h | h
          · exact Or.inl (List.mem_append.mpr (Or.inl h))
          · rcases ih h with h1 | h1
            · exact Or.inl (List.mem_append.mpr (Or.inr h1))
            · exact Or.inr h1
  · rw [if_neg hany] at hi
    rw [idsValFields_append] at hi
    rcases List.mem_append.mp hi with h | h
    · exact Or.inl h
    · simp [idsValFields] at h
      exact Or.inr h

theorem mem_idsSpecList {i : Nat} : ∀ {l : List TSpec},
    i ∈ idsSpecList l ↔ ∃ s ∈ l, i ∈ idsSpec s
  | [] => by simp [idsSpecList]
  | s :: ss => by
      simp only [idsSpecList, List.mem_append, List.mem_cons]
      constructor
      · rintro (h | h)
        · exact ⟨s, Or.inl rfl, h⟩
        · obtain ⟨u, hu, hiu⟩ := mem_idsSpecList.mp h
          exact ⟨u, Or.inr hu, hiu⟩
      · rintro ⟨u, hu | hu, hiu⟩
        · subst hu; exact Or.inl hiu
        · exact Or.inr (mem_idsSpecList.mpr ⟨u, hu, hiu⟩)

theorem idsGE_idsSpecList_of_mem {lo : Nat} {l : List TSpec}
    (h : ∀ s ∈ l, idsGE lo (idsSpec s)) : idsGE lo (idsSpecList l) := by
  intro i hi
  obtain ⟨s, hs, his⟩ := mem_idsSpecList.mp hi
  exact h s hs i his

theorem idsGE_eraseIdx {lo : Nat} {l : List TSpec} {n : Nat}
    (h : idsGE lo (idsSpecList l)) : idsGE lo (idsSpecList (l.eraseIdx n)) := by
  intro i hi
  obtain ⟨s, hs, his⟩ := mem_idsSpecList.mp hi
  exact h i (mem_idsSpecList.mpr ⟨s, List.eraseIdx_subset _ _ hs, his⟩)

theorem idsGE_set {lo : Nat} {l : List TSpec} {n : Nat} {m : TSpec}
    (h : idsGE lo (idsSpecList l)) (hm : idsGE lo (idsSpec m)) :
    idsGE lo (idsSpecList (l.set n m)) := by
  intro i hi
  obtain ⟨s, hs, his⟩ := mem_idsSpecList.mp hi
  rcases List.mem_or_eq_of_mem_set hs with h1 | h1
  · exact h i (mem_idsSpecList.mpr ⟨s, h1, his⟩)
  · subst h1; exact hm i his

theorem idsGE_insertAtT {lo : Nat} {l : List TSpec} {n : Nat} {e : TSpec}
    (h : idsGE lo (idsSpecList l)) (he : idsGE lo (idsSpec e)) :
    idsGE lo (idsSpecList (insertAtT l n e)) := by
  intro i hi
  obtain ⟨s, hs, his⟩ := mem_idsSpecList.mp hi
  unfold insertAtT at hs
  rcases List.mem_append.mp hs with h1 | h1
  · exact h i (mem_idsSpecList.mpr ⟨s, List.take_subset _ _ h1, his⟩)
  · rcases List.mem_cons.mp h1 with h2 | h2
    · subst h2; exact he i his
    · exact h i (mem_idsSpecList.mpr ⟨s, List.drop_subset _ _ h2, his⟩)

theorem mergeEnvTGo_bounds :
    ∀ (rest : List (String × TVal)) (rid : Nat)
      (res : List (String × TVal)) (c lo : Nat),
      lo ≤ c → idsGE lo (idsValFields res) →
      c ≤ (mergeEnvTGo rid res rest c).2.1 ∧
      (∀ i ∈ (mergeEnvTGo rid res rest c).2.2, i = rid) ∧
      idsGE lo (idsValFields (mergeEnvTGo rid res rest c).1)
  | [], rid, res, c, lo, hlo, hres => by
      refine ⟨le_refl c, ?_, ?_⟩
      · intro i hi; simp [mergeEnvTGo] at hi
      · simpa [mergeEnvTGo] using hres
  | (k, v) :: rest, rid, res, c, lo, hlo, hres => by
      have hv := deepCloneTVal_bounds v c
      rcases hp1 : deepCloneTVal v c with ⟨v2, c1⟩
      rw [hp1] at hv
      have hset : idsGE lo (idsValFields (setKeyT res k v2)) := by
        intro i hi
        rcases idsValFields_setKeyT res k v2 i hi with h | h
        · exact hres i h
        · exact le_trans hlo (hv.2 i h)
      have hrec := mergeEnvTGo_bounds rest rid (setKeyT res k v2) c1 lo
        (le_trans hlo hv.1) hset
      rcases hp2 : mergeEnvTGo rid (setKeyT res k v2) rest c1 with ⟨r2, c2, ws⟩
      rw [hp2] at hrec
      refine ⟨?_, ?_, ?_⟩
      · simpa [mergeEnvTGo, hp1, hp2] using le_trans hv.1 hrec.1
      · intro i hi
        simp only [mergeEnvTGo, hp1, hp2] at hi
        rcases List.mem_cons.mp hi with h | h
        · exact h
        · exact hrec.2.1 i h
      · simpa [mergeEnvTGo, hp1, hp2] using hrec.2.2

theorem mergeEnvT_bounds (tEnv dEnv : List (String × TVal)) (c : Nat) :
    c ≤ (mergeEnvT tEnv dEnv c).2.1 ∧
    idsGE c (mergeEnvT tEnv dEnv c).2.2 ∧
    idsGE c ((mergeEnvT tEnv dEnv c).1.1 ::
      idsValFields (mergeEnvT tEnv dEnv c).1.2) := by
  have hcl := deepCloneTValFields_bounds tEnv (c + 1)
  rcases hp1 : deepCloneTValFields tEnv (c + 1) with ⟨r0, c1⟩
  rw [hp1] at hcl
  have hgo := mergeEnvTGo_bounds dEnv c r0 c1 (c + 1) hcl.1 hcl.2
  rcases hp2 : mergeEnvTGo c r0 dEnv c1 with ⟨r1, c2, ws⟩
  rw [hp2] at hgo
  have hcl1 : c + 1 ≤ c1 := hcl.1
  have hgo1 : c1 ≤ c2 := hgo.1
  refine ⟨?_, ?_, ?_⟩
  · simp [mergeEnvT, hp1, hp2]
    omega
  · intro i hi
    simp [mergeEnvT, hp1, hp2] at hi
    have hir : i = c := hgo.2.1 i hi
    omega
  · intro i hi
    simp [mergeEnvT, hp1, hp2] at hi
    rcases hi with h | h
    · omega
    · have hge : c + 1 ≤ i := hgo.2.2 i h
      omega

mutual

theorem mergeObjT_bounds (t d : TSpec) (ov : Bool) (c : Nat) :
    c ≤ (mergeObjT t d ov c).2.1 ∧
    idsGE c (mergeObjT t d ov c).2.2 ∧
    ∀ y, (mergeObjT t d ov c).1 = .ok y → idsGE c (idsSpec y) := by
  by_cases hname : (t.tname != d.tname && !ov) = true
  · refine ⟨?_, ?_, ?_⟩ <;> simp [mergeObjT, hname, idsGE]
  · have henvB := mergeEnvT_bounds t.tenv d.tenv c
    rcases henv : mergeEnvT t.tenv d.tenv c with ⟨⟨eid, efields⟩, c1, ws1⟩
    rw [henv] at henvB
    have hc1 : c ≤ c1 := henvB.1
    have hws1 : idsGE c ws1 := henvB.2.1
    have heid : idsGE c (eid :: idsValFields efields) := henvB.2.2
    by_cases hcomp : (t.tcomponents.isSome || d.tcomponents.isSome) = true
    · have hmcB := mergeComponentsT_bounds t.tcompsList d.tcompsList (c1 + 1)
      rcases hmc : mergeComponentsT t.tcompsList d.tcompsList (c1 + 1) with
        ⟨r, c2, ws2⟩
      rw [hmc] at hmcB
      have hc2 : c1 + 1 ≤ c2 := hmcB.1
      have hws2 : idsGE (c1 + 1) ws2 := hmcB.2.1
      cases r with
      | error e =>
          refine ⟨?_, ?_, ?_⟩
          · simp [mergeObjT, hname, henv, hcomp, hmc]; omega
          · intro i hi
            simp [mergeObjT, hname, henv, hcomp, hmc] at hi
            rcases hi with h | h
            · exact hws1 i h
            · have := hws2 i h; omega
          · intro y hy
            simp [mergeObjT, hname, henv, hcomp, hmc] at hy
      | ok p =>
          obtain ⟨aid, lst⟩ := p
          have hok : idsGE (c1 + 1) (aid :: idsSpecList lst) :=
            hmcB.2.2 aid lst rfl
          refine ⟨?_, ?_, ?_⟩
          · simp [mergeObjT, hname, henv, hcomp, hmc]; omega
          · intro i hi
            simp [mergeObjT, hname, henv, hcomp, hmc] at hi
            rcases hi with h | h | h
            · exact hws1 i h
            · have := hws2 i h; omega
            · subst h; omega
          · intro y hy
            simp [mergeObjT, hname, henv, hcomp, hmc] at hy
            subst hy
            intro i hi
            simp only [idsSpec] at hi
            rcases List.mem_cons.mp hi with h | h
            · subst h; omega
            · rcases List.mem_cons.mp h with h1 | h1
              · subst h1
                exact heid i (List.mem_cons_self i _)
              · rcases List.mem_append.mp h1 with h2 | h2
                · exact heid i (List.mem_cons_of_mem _ h2)
                · have := hok i h2; omega
    · refine ⟨?_, ?_, ?_⟩
      · simp [mergeObjT, hname, henv, hcomp]; omega
      · intro i hi
        simp [mergeObjT, hname, henv, hcomp] at hi
        exact hws1 i hi
      · intro y hy
        simp [mergeObjT, hname, henv, hcomp] at hy
        subst hy
        intro i hi
        simp only [idsSpec] at hi
        rcases List.mem_cons.mp hi with h | h
        · subst h; omega
        · exact heid i h
termination_by TSpec.tsize d
decreasing_by
  exact TSpec.tsizeList_tcompsList_lt d

theorem mergeComponentsT_bounds (tl dl : List TSpec) (c : Nat) :
    c ≤ (mergeComponentsT tl dl c).2.1 ∧
    idsGE c (mergeComponentsT tl dl c).2.2 ∧
    ∀ aid lst, (mergeComponentsT tl dl c).1 = .ok (aid, lst) →
      idsGE c (aid :: idsSpecList lst) := by
  have hcl := deepCloneTSpecList_bounds tl (c + 1)
  rcases hp1 : deepCloneTSpecList tl (c + 1) with ⟨res0, c1⟩
  rw [hp1] at hcl
  have hc1 : c + 1 ≤ c1 := hcl.1
  have hres0 : idsGE (c + 1) (idsSpecList res0) := hcl.2
  have hgo := mergeComponentsGoT_bounds dl c res0 (-1) c1 c
    (by omega) (le_refl c) (idsGE_mono hres0 (by omega))
  rcases hp2 : mergeComponentsGoT c res0 (-1) dl c1 with ⟨r, c2, ws⟩
  rw [hp2] at hgo
  have hc2 : c1 ≤ c2 := hgo.1
  have hws : idsGE c ws := hgo.2.1
  cases r with
  | error e =>
      refine ⟨?_, ?_, ?_⟩
      · simp [mergeComponentsT, hp1, hp2]; omega
      · intro i hi
        simp [mergeComponentsT, hp1, hp2] at hi
        exact hws i hi
      · intro aid lst h
        simp [mergeComponentsT, hp1, hp2] at h
  | ok lst0 =>
      have hlst : idsGE c (idsSpecList lst0) := hgo.2.2 lst0 rfl
      refine ⟨?_, ?_, ?_⟩
      · simp [mergeComponentsT, hp1, hp2]; omega
      · intro i hi
        simp [mergeComponentsT, hp1, hp2] at hi
        exact hws i hi
      · intro aid lst h
        simp [mergeComponentsT, hp1, hp2] at h
        obtain ⟨ha, hl⟩ := h
        subst ha; subst hl
        exact idsGE_cons (le_refl c) hlst
termination_by TSpec.tsizeList dl + 1
decreasing_by
  omega

theorem mergeComponentsGoT_bounds :
    ∀ (d : List TSpec) (aid : Nat) (res : List TSpec) (lastOp : Int)
      (c lo : Nat), lo ≤ c → lo ≤ aid → idsGE lo (idsSpecList res) →
      c ≤ (mergeComponentsGoT aid res lastOp d c).2.1 ∧
      idsGE lo (mergeComponentsGoT aid res lastOp d c).2.2 ∧
      ∀ lst, (mergeComponentsGoT aid res lastOp d c).1 = .ok lst →
        idsGE lo (idsSpecList lst)
  | [], aid, res, lastOp, c, lo, hlo, haid, hres => by
      refine ⟨?_, ?_, ?_⟩
      · simp [mergeComponentsGoT]
      · intro i hi; simp [mergeComponentsGoT] at hi
      · intro lst h
        simp [mergeComponentsGoT] at h
        subst h; exact hres
  | x :: rest, aid, res, lastOp, c, lo, hlo, haid, hres => by
      by_cases hmod : x.tmodule = .null
      · cases hfind : findEntryT res x.tname with
        | some i =>
            have hrec := mergeComponentsGoT_bounds rest aid (res.eraseIdx i)
              ((i : Int) - 1) c lo hlo haid (idsGE_eraseIdx hres)
            rcases hp : mergeComponentsGoT aid (res.eraseIdx i)
                ((i : Int) - 1) rest c with ⟨r, c2, ws⟩
            rw [hp] at hrec
            refine ⟨?_, ?_, ?_⟩
            · simpa [mergeComponentsGoT, hmod, hfind, hp] using hrec.1
            · intro j hj
              simp [mergeComponentsGoT, hmod, hfind, hp] at hj
              rcases hj with h | h
              · omega
              · exact hrec.2.1 j h
            · intro lst h
              simp [mergeComponentsGoT, hmod, hfind, hp] at h
              exact hrec.2.2 lst (by simpa using h)
        | none =>
            have hrec := mergeComponentsGoT_bounds rest aid res lastOp c lo
              hlo haid hres
            rcases hp : mergeComponentsGoT aid res lastOp rest c with
              ⟨r, c2, ws⟩
            rw [hp] at hrec
            refine ⟨?_, ?_, ?_⟩
            · simpa [mergeComponentsGoT, hmod, hfind, hp] using hrec.1
            · intro j hj
              simp [mergeComponentsGoT, hmod, hfind, hp] at hj
              exact hrec.2.1 j hj
            · intro lst h
              simp [mergeComponentsGoT, hmod, hfind, hp] at h
              exact hrec.2.2 lst (by simpa using h)
      · cases hfind : findEntryT res x.tname with
        | some i =>
            have hmB := mergeObjT_bounds ((res[i]?).getD dfltTSpec) x false c
            rcases hmo : mergeObjT ((res[i]?).getD dfltTSpec) x false c with
              ⟨m, c1, ws1⟩
            rw [hmo] at hmB
            have hc1 : c ≤ c1 := hmB.1
            have hws1 : idsGE c ws1 := hmB.2.1
            cases m with
            | error e =>
                refine ⟨?_, ?_, ?_⟩
                · simpa [mergeComponentsGoT, hmod, hfind, hmo] using hc1
                · intro j hj
                  simp [mergeComponentsGoT, hmod, hfind, hmo] at hj
                  exact idsGE_mono hws1 hlo j hj
                · intro lst h
                  simp [mergeComponentsGoT, hmod, hfind, hmo] at h
            | ok mm =>
                have hmm : idsGE c (idsSpec mm) := hmB.2.2 mm rfl
                have hrec := mergeComponentsGoT_bounds rest aid (res.set i mm)
                  ((i : Int)) c1 lo (by omega) haid
                  (idsGE_set hres (idsGE_mono hmm hlo))
                rcases hp : mergeComponentsGoT aid (res.set i mm)
                    ((i : Int)) rest c1 with ⟨r, c2, ws2⟩
                rw [hp] at hrec
                have hc2 : c1 ≤ c2 := hrec.1
                refine ⟨?_, ?_, ?_⟩
                · simp [mergeComponentsGoT, hmod, hfind, hmo, hp]; omega
                · intro j hj
                  simp [mergeComponentsGoT, hmod, hfind, hmo, hp] at hj
                  rcases hj with h | h | h
                  · exact idsGE_mono hws1 hlo j h
                  · omega
                  · exact hrec.2.1 j h
                · intro lst h
                  simp [mergeComponentsGoT, hmod, hfind, hmo, hp] at h
                  exact hrec.2.2 lst (by simpa using h)
        | none =>
            have hcl := deepCloneTSpec_bounds x c
            rcases hx : deepCloneTSpec x c with ⟨x2, c1⟩
            rw [hx] at hcl
            have hc1 : c ≤ c1 := hcl.1
            have hrec := mergeComponentsGoT_bounds rest aid
              (insertAtT res (lastOp + 1).toNat x2) (lastOp + 1) c1 lo
              (by omega) haid (idsGE_insertAtT hres (idsGE_mono hcl.2 hlo))
            rcases hp : mergeComponentsGoT aid
                (insertAtT res (lastOp + 1).toNat x2) (lastOp + 1) rest c1 with
              ⟨r, c2, ws2⟩
            rw [hp] at hrec
            have hc2 : c1 ≤ c2 := hrec.1
            refine ⟨?_, ?_, ?_⟩
            · simp [mergeComponentsGoT, hmod, hfind, hx, hp]; omega
            · intro j hj
              simp [mergeComponentsGoT, hmod, hfind, hx, hp] at hj
              rcases hj with h | h
              · omega
              · exact hrec.2.1 j h
            · intro lst h
              simp [mergeComponentsGoT, hmod, hfind, hx, hp] at h
              exact hrec.2.2 lst (by simpa using h)
termination_by d => TSpec.tsizeList d
decreasing_by
  all_goals simp [TSpec.tsizeList]
  all_goals omega

end

/-- C5: `merge(S, D, overrideName)` neither mutates its inputs nor shares
mutable substructure with them. In the instrumented semantics: when every
heap identity of `S` and `D` lies below the allocation counter, every write
recorded while merging and every mutable node of the (cloned) result
carries a fresh identity, so no write touches a node of `S` or `D` (their
values after the call are their values before), and the result is
reference-disjoint from both inputs. -/
theorem merge_no_mutation_no_sharing (t d : TSpec) (ov : Bool) (c : Nat)
    (ht : ∀ i ∈ idsSpec t, i < c) (hd : ∀ i ∈ idsSpec d, i < c) :
    (∀ i ∈ (mergeT t (some d) ov c).2.2, i ∉ idsSpec t ∧ i ∉ idsSpec d) ∧
    (∀ y, (mergeT t (some d) ov c).1 = .ok y →
      ∀ i ∈ idsSpec y, i ∉ idsSpec t ∧ i ∉ idsSpec d) := by
  have hB := mergeObjT_bounds t d ov c
  constructor
  · intro i hi
    have hge : c ≤ i := hB.2.1 i (by simpa [mergeT] using hi)
    exact ⟨fun hmem => absurd (ht i hmem) (by omega),
           fun hmem => absurd (hd i hmem) (by omega)⟩
  · intro y hy i hi
    have hge : c ≤ i := hB.2.2 y (by simpa [mergeT] using hy) i hi
    exact ⟨fun hmem => absurd (ht i hmem) (by omega),
           fun hmem => absurd (hd i hmem) (by omega)⟩

def tSpecW : TSpec := .mk 0 "a" (.str "m") none 1 [("k", .obj 2 [])] none

def dSpecW : TSpec := .mk 3 "a" .undefined none 4 [] (some (5, []))

theorem merge_no_mutation_no_sharing_witness :
    (∀ i ∈ idsSpec tSpecW, i < 10) ∧ (∀ i ∈ idsSpec dSpecW, i < 10) ∧
    ((∀ i ∈ (mergeT tSpecW (some dSpecW) false 10).2.2,
        i ∉ idsSpec tSpecW ∧ i ∉ idsSpec dSpecW) ∧
     (∀ y, (mergeT tSpecW (some dSpecW) false 10).1 = .ok y →
        ∀ i ∈ idsSpec y, i ∉ idsSpec tSpecW ∧ i ∉ idsSpec dSpecW)) :=
  ⟨by decide, by decide,
   merge_no_mutation_no_sharing tSpecW dSpecW false 10 (by decide) (by decide)⟩

/-! ### Component kernel (`gen_component.js`) -/

/-- Observable state of a generic component: its shutdown flag and the
enclosing context `$`, a mapping from names to object identities
(JavaScript object identity decides `$[spec.name] === that`). -/
structure CompState where
  isShutdown : Bool
  ctx : List (String × Nat)
  deriving Repr, DecidableEq

def ctxLookup (ctx : List (String × Nat)) (k : String) : Option Nat :=
  match ctx.find? (fun p => p.1 == k) with
  | some p => some p.2
  | none => none

def ctxRemove (ctx : List (String × Nat)) (k : String) : List (String × Nat) :=
  ctx.filter (fun p => p.1 != k)

/-- `__ca_checkup__` of `gen_component`: fails exactly when the component
is shut down; the state is not modified. -/
def componentCheckup (st : CompState) : Option String :=
  if st.isShutdown then
    some "Checkup failed: component already shutdown"
  else none

/-- `__ca_shutdown__` of `gen_component` for the component with identity
`myId` registered under `name`: set `isShutdown`, delete the context
binding only when it still holds this exact object, and always succeed. -/
def componentShutdown (myId : Nat) (name : String) (st : CompState) :
    CompState × Option String :=
  let st1 : CompState := { st with isShutdown := true }
  if ctxLookup st.ctx name = some myId then
    ({ st1 with ctx := ctxRemove st.ctx name }, none)
  else
    (st1, none)

theorem ctxLookup_ctxRemove (ctx : List (String × Nat)) (k : String) :
    ctxLookup (ctxRemove ctx k) k = none := by
  induction ctx with
  | nil => rfl
  | cons p ps ih =>
      obtain ⟨k2, v⟩ := p
      by_cases hk : k2 = k
      · subst hk
        simpa [ctxRemove, List.filter_cons] using ih
      · simp only [ctxRemove, List.filter_cons] at ih ⊢
        simp only [show ((k2, v).1 != k) = true by simpa using hk, if_true]
        simp only [ctxLookup, List.find?_cons] at ih ⊢
        simp only [show ((k2, v).1 == k) = false by simpa using hk] at ih ⊢
        simpa using ih

/-- C6: `shutdown` of the component kernel always succeeds, sets
`isShutdown`, removes the context binding exactly when it still refers to
this object, and a second call succeeds and leaves the state of the first
call unchanged. -/
theorem componentShutdown_ok_idempotent (myId : Nat) (name : String)
    (st : CompState) :
    (componentShutdown myId name st).2 = none ∧
    (componentShutdown myId name st).1.isShutdown = true ∧
    (ctxLookup st.ctx name = some myId →
      ctxLookup (componentShutdown myId name st).1.ctx name = none) ∧
    (ctxLookup st.ctx name ≠ some myId →
      (componentShutdown myId name st).1.ctx = st.ctx) ∧
    componentShutdown myId name (componentShutdown myId name st).1 =
      ((componentShutdown myId name st).1, none) := by
  by_cases h : ctxLookup st.ctx name = some myId
  · refine ⟨?_, ?_, ?_, ?_, ?_⟩
    · simp [componentShutdown, h]
    · simp [componentShutdown, h]
    · intro _
      simp [componentShutdown, h, ctxLookup_ctxRemove]
    · intro hn; exact absurd h hn
    · simp [componentShutdown, h, ctxLookup_ctxRemove]
  · refine ⟨?_, ?_, ?_, ?_, ?_⟩
    · simp [componentShutdown, h]
    · simp [componentShutdown, h]
    · intro hy; exact absurd hy h
    · intro _; simp [componentShutdown, h]
    · simp [componentShutdown, h]

def compStW : CompState := ⟨false, [("hello", 7), ("other", 9)]⟩

theorem componentShutdown_ok_idempotent_witness :
    (ctxLookup compStW.ctx "hello" = some 7 →
      ctxLookup (componentShutdown 7 "hello" compStW).1.ctx "hello" = none) ∧
    (componentShutdown 7 "hello" compStW).2 = none :=
  ⟨(componentShutdown_ok_idempotent 7 "hello" compStW).2.2.1,
   (componentShutdown_ok_idempotent 7 "hello" compStW).1⟩

/-! ### Static container (`gen_container.js`) -/

def TOP : String := "_"
def LOADER : String := "loader"
def CA : String := "ca"

/-- An entry of the children context `$.$`: a name and whether the
component is marked `__ca_isNotUnknown__` (proxies are so marked). -/
structure CtxEntry where
  name : String
  isNotUnknown : Bool
  deriving Repr, DecidableEq

/-- Observable state of a static container: its shutdown flag, the
declaration-ordered names of `spec.components`, and the children context
`$.$` in insertion order. -/
structure ContainerState where
  isShutdown : Bool
  childrenSpecNames : List String
  ctx : List CtxEntry
  deriving Repr, DecidableEq

/-- `selectChildren(true)`: expected children present in the context, in
declaration order. -/
def knownChildren (st : ContainerState) : List String :=
  st.childrenSpecNames.filter (fun n => st.ctx.any (fun e => e.name == n))

/-- `selectChildren(false)`: present children that are not reserved
(`_`, `ca`, `loader`), not `__ca_isNotUnknown__`, and not in the children
spec. -/
def unknownChildren (st : ContainerState) : List String :=
  (st.ctx.filter (fun e =>
     e.name != TOP && e.name != CA && e.name != LOADER &&
     !e.isNotUnknown && !(st.childrenSpecNames.contains e.name))).map
    (fun e => e.name)

inductive ShutdownEv where
  | parentKernel : ShutdownEv
  | child (name : String) : ShutdownEv
  deriving Repr, DecidableEq

/-- Serial `cntUtils.many('shutdownChild', all, data)`: shut down each
child in order, stopping at the first failure (`async.eachSeries`
semantics); `childOk` gives each child's shutdown outcome (an absent child
succeeds). -/
def shutdownMany (childOk : String → Bool) :
    List String → List ShutdownEv × Option String
  | [] => ([], none)
  | n :: rest =>
      if childOk n then
        let (evs, err) := shutdownMany childOk rest
        (ShutdownEv.child n :: evs, err)
      else ([ShutdownEv.child n], some n)

/-- `__ca_shutdown__` of `gen_container`: the parent kernel's shutdown
runs first (it always succeeds and sets the flag), and only then are the
children `unknown().concat(known()).reverse()` shut down serially.
Per-child errors are logged at debug and propagated. Each child's own
deregistration from `$.$` happens in the child's own kernel state (see
`componentShutdown`), so the parent's view is returned unchanged apart
from the flag. -/
def containerShutdown (st : ContainerState) (childOk : String → Bool) :
    List ShutdownEv × Option String × ContainerState :=
  let st1 := { st with isShutdown := true }
  let all := (unknownChildren st ++ knownChildren st).reverse
  let (evs, err) := shutdownMany childOk all
  (ShutdownEv.parentKernel :: evs, err, st1)

/-- The shutdown order asserted by the claim: unknown children first, then
the expected children in reverse declaration order, and the parent
kernel's shutdown only after all children. -/
def claimedShutdownOrder (st : ContainerState) : List ShutdownEv :=
  (unknownChildren st).map ShutdownEv.child ++
    ((knownChildren st).reverse.map ShutdownEv.child) ++
    [ShutdownEv.parentKernel]

def contStCex : ContainerState :=
  ⟨false, ["a", "b"], [⟨"a", false⟩, ⟨"b", false⟩, ⟨"u", false⟩]⟩

/-- C2 counterexample: for a container with expected children `a, b` (both
present) and one unknown child `u`, all shutdowns succeeding, the code
shuts down in the order `parent-kernel, b, a, u`, while the claim asserts
the order `u, b, a, parent-kernel`. -/
theorem containerShutdown_order_cex :
    (containerShutdown contStCex (fun _ => true)).1 ≠
      claimedShutdownOrder contStCex := by
  decide

theorem shutdownMany_all_ok (childOk : String → Bool)
    (h : ∀ n, childOk n = true) :
    ∀ l : List String,
      shutdownMany childOk l = (l.map ShutdownEv.child, none)
  | [] => rfl
  | n :: rest => by
      simp [shutdownMany, h n, shutdownMany_all_ok childOk h rest]

/-- C2 (amended): when every child shutdown succeeds, the container's
shutdown first invokes the parent kernel's shutdown, then shuts down the
expected children in reverse declaration order followed by the unknown
children in reverse context order, succeeds, and leaves the container
marked shut down. -/
theorem containerShutdown_order (st : ContainerState)
    (childOk : String → Bool) (h : ∀ n, childOk n = true) :
    (containerShutdown st childOk).1 =
      ShutdownEv.parentKernel ::
        (((knownChildren st).reverse ++ (unknownChildren st).reverse).map
          ShutdownEv.child) ∧
    (containerShutdown st childOk).2.1 = none ∧
    (containerShutdown st childOk).2.2.isShutdown = true := by
  refine ⟨?_, ?_, ?_⟩
  · simp [containerShutdown, shutdownMany_all_ok childOk h,
          List.reverse_append]
  · simp [containerShutdown, shutdownMany_all_ok childOk h]
  · simp [containerShutdown]

theorem containerShutdown_order_witness :
    (containerShutdown contStCex (fun _ => true)).1 =
      ShutdownEv.parentKernel ::
        (((knownChildren contStCex).reverse ++
          (unknownChildren contStCex).reverse).map ShutdownEv.child) ∧
    (containerShutdown contStCex (fun _ => true)).2.1 = none :=
  ⟨(containerShutdown_order contStCex (fun _ => true) (fun _ => rfl)).1,
   (containerShutdown_order contStCex (fun _ => true) (fun _ => rfl)).2.1⟩

/-! ### Dynamic container (`gen_dynamic_container.js`) -/

/-- Dynamic `known()`: context members whose name is in the expected set
(`childrenSpecObj`), in context order. -/
def dynKnownChildren (st : ContainerState) : List String :=
  (st.ctx.filter (fun e => st.childrenSpecNames.contains e.name)).map
    (fun e => e.name)

/-- `__ca_shutdown__` of `gen_dynamic_container`: set `isShutdown` first
(to block `checkup` creating children), shut down `unknown().concat
(known())` children serially, and only on success run the parent kernel's
shutdown (which deregisters from the parent context). -/
def dynamicShutdown (st : ContainerState) (childOk : String → Bool) :
    List ShutdownEv × Option String × ContainerState :=
  let st1 := { st with isShutdown := true }
  let (evs, err) :=
    shutdownMany childOk (unknownChildren st1 ++ dynKnownChildren st1)
  match err with
  | none => (evs ++ [ShutdownEv.parentKernel], none, st1)
  | some e => (evs, some e, st1)

/-! ### Supervisor (`gen_supervisor.js`) -/

structure SupervisorState where
  isShutdown : Bool
  timerOn : Bool
  deriving Repr, DecidableEq

/-- `__ca_shutdown__` of `gen_supervisor`: set `isShutdown` (to block
`checkup` creating children), stop the timer, shut down the internal cron;
a cron failure triggers `die` (log at fatal, optional process exit,
re-entrant shutdown and a fatal error through the callback), success
continues into the parent kernel's shutdown. Either way the flag stays
set. -/
def supervisorShutdown (st : SupervisorState) (cronOk : Bool) :
    SupervisorState × Option String :=
  let st1 : SupervisorState := { st with isShutdown := true, timerOn := false }
  if cronOk then (st1, none)
  else (st1, some "Error shutting down cron")

/-- C9: the `isShutdown` flag is monotonic: none of the shutdown
operations of the component kernel, the static or dynamic containers, or
the supervisor resets it from `true` to `false` (each of them only ever
sets it; `checkup` operations never write the flag — in the source the
only `__ca_isShutdown__ = false` assignment is the initialisation in
`gen_component.create`). -/
theorem isShutdown_monotonic :
    (∀ (myId : Nat) (name : String) (st : CompState), st.isShutdown = true →
      (componentShutdown myId name st).1.isShutdown = true) ∧
    (∀ (st : ContainerState) (childOk : String → Bool),
      st.isShutdown = true →
      (containerShutdown st childOk).2.2.isShutdown = true) ∧
    (∀ (st : ContainerState) (childOk : String → Bool),
      st.isShutdown = true →
      (dynamicShutdown st childOk).2.2.isShutdown = true) ∧
    (∀ (st : SupervisorState) (cronOk : Bool), st.isShutdown = true →
      (supervisorShutdown st cronOk).1.isShutdown = true) := by
  refine ⟨?_, ?_, ?_, ?_⟩
  · intro myId name st _
    unfold componentShutdown
    split <;> rfl
  · intro st childOk _
    simp [containerShutdown]
  · intro st childOk _
    unfold dynamicShutdown
    rcases h : shutdownMany childOk
        (unknownChildren { st with isShutdown := true } ++
          dynKnownChildren { st with isShutdown := true }) with ⟨evs, err⟩
    simp only [h]
    cases err <;> rfl
  · intro st cronOk _
    unfold supervisorShutdown
    split <;> rfl

theorem isShutdown_monotonic_witness :
    ((⟨true, []⟩ : CompState).isShutdown = true ∧
      (componentShutdown 1 "x" ⟨true, []⟩).1.isShutdown = true) ∧
    ((⟨true, ["a"], []⟩ : ContainerState).isShutdown = true ∧
      (containerShutdown ⟨true, ["a"], []⟩ (fun _ => true)).2.2.isShutdown
        = true) ∧
    ((dynamicShutdown ⟨true, ["a"], []⟩ (fun _ => false)).2.2.isShutdown
        = true) ∧
    ((supervisorShutdown ⟨true, true⟩ false).1.isShutdown = true) :=
  ⟨⟨rfl, isShutdown_monotonic.1 1 "x" ⟨true, []⟩ rfl⟩,
   ⟨rfl, isShutdown_monotonic.2.1 ⟨true, ["a"], []⟩ (fun _ => true) rfl⟩,
   isShutdown_monotonic.2.2.1 ⟨true, ["a"], []⟩ (fun _ => false) rfl,
   isShutdown_monotonic.2.2.2 ⟨true, true⟩ false rfl⟩

/-- Errors surfaced by the supervisor's health-check driver; only
`hangRetry` carries the `checkingForHang` marker. -/
inductive SupErr where
  | checkup (e : String) : SupErr
  | hangRetry : SupErr
  | die (msg : String) : SupErr
  deriving Repr, DecidableEq

/-- The closure state of `__ca_start__` (`pending`, `numRetries`). -/
structure SupCheckSt where
  pending : Bool
  numRetries : Nat
  deriving Repr, DecidableEq

/-- One round of the health-check driver `f` in `__ca_start__`:
if the previous round is still pending, bump the hang counter and report
`Hang, retrying` (whose `checkingForHang` marker skips the reset) or `die`
past `maxHangRetries`; otherwise run one checkup and reset. Returns the
new closure state, the completion value, and how many checkups ran. -/
def supervisorRound (maxHang : Nat) (checkupRes : Option String)
    (st : SupCheckSt) : SupCheckSt × Option SupErr × Nat :=
  if st.pending then
    if st.numRetries ≤ maxHang then
      ({ st with numRetries := st.numRetries + 1 }, some .hangRetry, 0)
    else
      (⟨false, 0⟩, some (.die "Hang in checkup"), 0)
  else
    match checkupRes with
    | some e => (⟨false, 0⟩, some (.checkup e), 1)
    | none => (⟨false, 0⟩, none, 1)

/-- Synchronous start (`__ca_start__` with a completion callback): run one
round; start the cron timer only when it succeeds; deliver the result to
the callback. Returns closure state, whether the timer was started, the
callback value, and the number of checkups run. -/
def supervisorSyncStart (maxHang : Nat) (checkupRes : Option String) :
    SupCheckSt × Bool × Option SupErr × Nat :=
  let (st1, res, n) := supervisorRound maxHang checkupRes ⟨false, 0⟩
  match res with
  | none => (st1, true, none, n)
  | some e => (st1, false, some e, n)

/-- C7: a synchronous start runs exactly one health check: on failure the
timer is never started and the error goes to the completion callback; on
success the timer is started. After a successful start the closure state
is `⟨false, 0⟩`, and a subsequent timer round (which has no completion
callback, so its result goes to the optional notifier) runs one checkup
and delivers exactly its result. -/
theorem supervisorSyncStart_spec (maxHang : Nat) :
    (∀ e, supervisorSyncStart maxHang (some e) =
      (⟨false, 0⟩, false, some (.checkup e), 1)) ∧
    (supervisorSyncStart maxHang none = (⟨false, 0⟩, true, none, 1)) ∧
    (∀ res2 : Option String, supervisorRound maxHang res2 ⟨false, 0⟩ =
      (⟨false, 0⟩, res2.map SupErr.checkup, 1)) := by
  refine ⟨?_, ?_, ?_⟩
  · intro e
    simp [supervisorSyncStart, supervisorRound]
  · simp [supervisorSyncStart, supervisorRound]
  · intro res2
    cases res2 <;> simp [supervisorRound]

/-! ### Transactional container (`gen_transactional`) -/

/-- A deferred operation queued by `__ca_lazyApply__`. -/
structure LogAction where
  method : String
  args : List JVal
  deriving Repr, DecidableEq

/-- The private transactional state: `that.state`, the `stateBackup`
string, and the `logActions` queue. Propagation of every phase to the
transactional children happens after (or, for `prepare`, before) these
updates and cannot modify them, so it is not part of this state. -/
structure TransState where
  state : JVal
  stateBackup : String
  logActions : List LogAction
  deriving Repr, DecidableEq

/-- `__ca_begin__`: snapshot a truthy `state` into `stateBackup` (a falsy
`state` leaves the old backup in place) and clear the log, then propagate
`begin` to the transactional children. -/
def transBegin (st : TransState) : TransState :=
  { state := st.state,
    stateBackup :=
      if st.state.truthy then stringifyJson st.state else st.stateBackup,
    logActions := [] }

/-- The prepare checkpoint: the children's results keyed by name, plus
`state` when truthy and `logActions` when non-empty. -/
structure Checkpoint where
  children : List (String × JVal)
  state : Option JVal
  logActions : Option (List LogAction)
  deriving Repr, DecidableEq

/-- `__ca_prepare__`: call `prepare` on the transactional children (their
combined results are `childrenRes`) and assemble the checkpoint; the
transactional state itself is not modified. -/
def transPrepare (st : TransState) (childrenRes : List (String × JVal)) :
    TransState × Checkpoint :=
  (st,
   { children := childrenRes,
     state := if st.state.truthy then some st.state else none,
     logActions :=
       if st.logActions.length > 0 then some st.logActions else none })

/-- `__ca_abort__`: restore `state` by JSON-parsing `stateBackup` — but
only when the current `state` is truthy AND the backup is non-empty — then
clear the log and propagate `abort` to the children. A parse failure
throws before the log is cleared and is returned through the callback. -/
def transAbort (st : TransState) : TransState × Option String :=
  if st.state.truthy && st.stateBackup != "" then
    match jsonParse st.stateBackup with
    | some v =>
        ({ state := v, stateBackup := st.stateBackup, logActions := [] },
         none)
    | none => (st, some "JSON.parse failed")
  else
    ({ st with logActions := [] }, none)

def transStCex : TransState := ⟨.null, "\"x\"", []⟩

/-- C3 counterexample: `abort` does NOT restore `state` whenever
`stateBackup` is non-empty — with `state = null` and a non-empty,
parseable backup, the code's truthiness guard on `state` skips the
restore and `state` stays `null`. -/
theorem transAbort_not_always_restore :
    transStCex.stateBackup ≠ "" ∧
    jsonParse transStCex.stateBackup = some (.str "x") ∧
    (transAbort transStCex).1.state = .null ∧
    (transAbort transStCex).1.state ≠ .str "x" := by
  refine ⟨by decide, by decide, by decide, by decide⟩

/-- C3 (amended): `begin; prepare; abort` leaves `state` JSON-round-trip
equal to its value just before `begin` and clears the deferred-action
log; and `abort` restores `state` by JSON-parsing `stateBackup` whenever
the current `state` is truthy AND `stateBackup` is non-empty (not merely
whenever the backup is non-empty). -/
theorem transBeginPrepareAbort_roundtrip (st : TransState)
    (childrenRes : List (String × JVal))
    (h : st.state.truthy = true →
      jsonParse (stringifyJson st.state) = some st.state ∧
      stringifyJson st.state ≠ "") :
    ((transAbort (transPrepare (transBegin st) childrenRes).1).1.state =
      st.state) ∧
    ((transAbort (transPrepare (transBegin st) childrenRes).1).1.logActions
      = []) ∧
    ((transAbort (transPrepare (transBegin st) childrenRes).1).2 = none) ∧
    (∀ s : TransState, s.state.truthy = true → s.stateBackup ≠ "" →
      ∀ v, jsonParse s.stateBackup = some v →
        transAbort s =
          ({ state := v, stateBackup := s.stateBackup, logActions := [] },
           none)) := by
  refine ⟨?_, ?_, ?_, ?_⟩
  · by_cases ht : st.state.truthy = true
    · obtain ⟨hp, hne⟩ := h ht
      simp [transBegin, transPrepare, transAbort, ht, hp, hne]
    · simp at ht
      simp [transBegin, transPrepare, transAbort, ht]
  · by_cases ht : st.state.truthy = true
    · obtain ⟨hp, hne⟩ := h ht
      simp [transBegin, transPrepare, transAbort, ht, hp, hne]
    · simp at ht
      simp [transBegin, transPrepare, transAbort, ht]
  · by_cases ht : st.state.truthy = true
    · obtain ⟨hp, hne⟩ := h ht
      simp [transBegin, transPrepare, transAbort, ht, hp, hne]
    · simp at ht
      simp [transBegin, transPrepare, transAbort, ht]
  · intro s hs hb v hv
    simp [transAbort, hs, hb, hv]

def transStW : TransState := ⟨.obj [("a", .num 1)], "", [⟨"m", []⟩]⟩

theorem transBeginPrepareAbort_roundtrip_witness :
    (transStW.state.truthy = true →
      jsonParse (stringifyJson transStW.state) = some transStW.state ∧
      stringifyJson transStW.state ≠ "") ∧
    ((transAbort (transPrepare (transBegin transStW) []).1).1.state =
      transStW.state) :=
  ⟨by decide, (transBeginPrepareAbort_roundtrip transStW [] (by decide)).1⟩

/-! ### Loader (`__ca_loadComponent__`) -/

/-- `module.split('#')`, char-structurally. -/
def splitHash : List Char → List (List Char)
  | [] => [[]]
  | '#' :: cs => [] :: splitHash cs
  | c :: cs =>
      match splitHash cs with
      | [] => [[c]]
      | g :: gs => (c :: g) :: gs

def jsSplitHash (s : String) : List String :=
  (splitHash s.data).map String.mk

/-- A resolved module artefact: an object with named members and possibly
a `newInstance` factory, identified by a handle into the abstract factory
environment (the platform's `require` and the factory bodies are external
inputs). -/
inductive ModVal where
  | mk (fields : List (String × ModVal)) (newInstance : Option Nat)

def ModVal.get (m : ModVal) (k : String) : Option ModVal :=
  match m with
  | .mk fields _ =>
      match fields.find? (fun p => p.1 == k) with
      | some p => some p.2
      | none => none

def ModVal.factory : ModVal → Option Nat
  | .mk _ f => f

/-- The accessor walk `comp = comp[method]`; a missing member leaves
`undefined`, whose further access or final factory check fails (both are
surfaced as the caught error). -/
def walkAccessors : ModVal → List String → Option ModVal
  | m, [] => some m
  | m, a :: rest =>
      match m.get a with
      | some m2 => walkAccessors m2 rest
      | none => none

/-- Split the module string on `#`, resolve the head with the loader's
`load`, walk the accessor chain, and require a `newInstance` function. -/
def resolveFactory (loadRes : String → Except String ModVal)
    (moduleStr : String) : Except String Nat :=
  let parts := jsSplitHash moduleStr
  match loadRes (parts.headD "") with
  | .error e => .error e
  | .ok m0 =>
      match walkAccessors m0 parts.tail with
      | none => .error "Cannot load component"
      | some m =>
          match m.factory with
          | none => .error "Cannot load component"
          | some fid => .ok fid

/-- `comp$[name] = result` on the context. -/
def ctxSet (ctx : List (String × Nat)) (k : String) (v : Nat) :
    List (String × Nat) :=
  if ctx.any (fun p => p.1 == k) then
    ctx.map (fun p => if p.1 == k then (k, v) else p)
  else
    ctx ++ [(k, v)]

/-- `__ca_loadComponent__`: resolve the factory, invoke it (`factoryRun`
gives the asynchronous outcome, a component identity), run the new
component's `checkup(null)` (`checkupRes`), and only then register the
component in the context under `name`; any error is returned through the
callback with the context untouched. -/
def loadComponent (ctx : List (String × Nat)) (name moduleStr : String)
    (loadRes : String → Except String ModVal)
    (factoryRun : Nat → Except String Nat)
    (checkupRes : Nat → Option String) :
    List (String × Nat) × Except String Nat :=
  match resolveFactory loadRes moduleStr with
  | .error e => (ctx, .error e)
  | .ok fid =>
      match factoryRun fid with
      | .error e => (ctx, .error e)
      | .ok comp =>
          match checkupRes comp with
          | some e => (ctx, .error e)
          | none => (ctxSet ctx name comp, .ok comp)

/-- C4: `loadComponent` registers the new component in the context under
the spec's name exactly when the factory invocation and the subsequent
`checkup(null)` both succeed; on any failure the error is returned through
the callback and the context binding is left unchanged. -/
theorem loadComponent_register_iff (ctx : List (String × Nat))
    (name moduleStr : String) (loadRes : String → Except String ModVal)
    (factoryRun : Nat → Except String Nat)
    (checkupRes : Nat → Option String) :
    ((∃ c, (loadComponent ctx name moduleStr loadRes factoryRun
        checkupRes).2 = .ok c) ↔
      (∃ fid c, resolveFactory loadRes moduleStr = .ok fid ∧
        factoryRun fid = .ok c ∧ checkupRes c = none)) ∧
    (∀ e, (loadComponent ctx name moduleStr loadRes factoryRun
        checkupRes).2 = .error e →
      (loadComponent ctx name moduleStr loadRes factoryRun
        checkupRes).1 = ctx) ∧
    (∀ c, (loadComponent ctx name moduleStr loadRes factoryRun
        checkupRes).2 = .ok c →
      (loadComponent ctx name moduleStr loadRes factoryRun
        checkupRes).1 = ctxSet ctx name c) := by
  cases hr : resolveFactory loadRes moduleStr with
  | error e =>
      refine ⟨?_, ?_, ?_⟩
      · simp [loadComponent, hr]
      · intro e2 _; simp [loadComponent, hr]
      · intro c hc; simp [loadComponent, hr] at hc
  | ok fid =>
      cases hf : factoryRun fid with
      | error e =>
          refine ⟨?_, ?_, ?_⟩
          · simp [loadComponent, hr, hf]
          · intro e2 _; simp [loadComponent, hr, hf]
          · intro c hc; simp [loadComponent, hr, hf] at hc
      | ok comp =>
          cases hk : checkupRes comp with
          | some e =>
              refine ⟨?_, ?_, ?_⟩
              · simp [loadComponent, hr, hf, hk]
              · intro e2 _; simp [loadComponent, hr, hf, hk]
              · intro c hc; simp [loadComponent, hr, hf, hk] at hc
          | none =>
              refine ⟨?_, ?_, ?_⟩
              · constructor
                · intro _
                  refine ⟨fid, comp, ?_, ?_, ?_⟩ <;> simp [hr, hf, hk]
                · intro _
                  exact ⟨comp, by simp [loadComponent, hr, hf, hk]⟩
              · intro e2 he; simp [loadComponent, hr, hf, hk] at he
              · intro c hc
                simp [loadComponent, hr, hf, hk] at hc ⊢
                subst hc
                rfl

def modW : ModVal := .mk [] (some 0)

theorem loadComponent_register_iff_witness :
    ((loadComponent [] "hello" "m" (fun s =>
        if s == "m" then .ok modW else .error "not found")
      (fun _ => .ok 42) (fun _ => none)).2 = .ok 42 →
     (loadComponent [] "hello" "m" (fun s =>
        if s == "m" then .ok modW else .error "not found")
      (fun _ => .ok 42) (fun _ => none)).1 =
        ctxSet [] "hello" 42) ∧
    (loadComponent [] "hello" "m" (fun s =>
        if s == "m" then .ok modW else .error "not found")
      (fun _ => .ok 42) (fun _ => none)).2 = .ok 42 :=
  ⟨(loadComponent_register_iff [] "hello" "m" _ _ _).2.2 42, by rfl⟩

/-! ### `containerUtils.shutdownChild`: pre- and post-refactor snapshots -/

/-- `myUtils.retryWithDelay` via `async.retry(nTimes, …)`: run the task up
to `nTimes` times in total, stopping at the first success; `attempt i` is
the outcome of the i-th attempt. Returns the final outcome and the number
of attempts performed (`nTimes = 0` performs none). -/
def retryWithDelayGo (attempt : Nat → Option String) :
    Nat → Nat → Option String × Nat
  | 0, _ => (some "retry: no attempts", 0)
  | 1, i => (attempt i, i + 1)
  | Nat.succ (Nat.succ m), i =>
      match attempt i with
      | none => (none, i + 1)
      | some _ => retryWithDelayGo attempt (Nat.succ m) (i + 1)

def retryWithDelay (attempt : Nat → Option String) (nTimes : Nat) :
    Option String × Nat :=
  retryWithDelayGo attempt nTimes 0

/-- Pre-refactor `shutdownChild` (first snapshot in `containerUtils.js`):
it computes `var retries = (doRetry ? maxRetries : 1)` but then passes
`maxRetries` to `retryWithDelay`, so the `doRetry` flag has no effect and
a failed shutdown is always retried up to `maxRetries` times. An absent
child's attempt succeeds immediately (`cb0(null)`). -/
def shutdownChildPre (maxRetries : Nat) (doRetry : Bool)
    (attempt : Nat → Option String) : Option String × Nat :=
  retryWithDelay attempt maxRetries

/-- Post-refactor `shutdownChild` (second snapshot): passes
`retries = (doRetry ? maxRetries : 1)`, so without `doRetry` it gives up
after a single failed attempt. -/
def shutdownChildPost (maxRetries : Nat) (doRetry : Bool)
    (attempt : Nat → Option String) : Option String × Nat :=
  retryWithDelay attempt (if doRetry then maxRetries else 1)

/-- C10: the two snapshots of `shutdownChild` are NOT observably
equivalent. With `maxRetries = 2`, `doRetry = false`, and a child whose
shutdown always fails, the pre-refactor snapshot performs 2 attempts
while the post-refactor one performs 1 — the unused `retries` local in
the pre-refactor snapshot (its own doc says "by default (false) no
retry") shows the intent that the post-refactor code implements. With
`doRetry = true` the snapshots agree. -/
theorem shutdownChild_refactor_divergence :
    (shutdownChildPre 2 false (fun _ => some "shutdown failed") =
      (some "shutdown failed", 2)) ∧
    (shutdownChildPost 2 false (fun _ => some "shutdown failed") =
      (some "shutdown failed", 1)) ∧
    (∀ (m : Nat) (a : Nat → Option String),
      shutdownChildPre m true a = shutdownChildPost m true a) := by
  refine ⟨by decide, by decide, ?_⟩
  intro m a
  simp [shutdownChildPre, shutdownChildPost]
